import Mathlib

/-!
# Verification of `beancount_import_sources`

A shallow embedding, in Lean 4, of the parts of the repository
`beancount_import_sources` that its specification talks about:

* the reconciliation/idempotency engine shared verbatim by the ADP, Venmo,
  Cash App, BoA-mortgage, Workday and Emburse sources (`Recon` namespace);
* the Costco receipt source's divergent single-valued reconciliation
  (`Costco` namespace);
* the string-amount parsers (`PyNum`, `BoA`, `Emburse`, `CashApp`);
* the ADP payroll per-file transaction synthesis (`Adp`);
* the Workday sign normalisation (`Workday`);
* the multi-table spreadsheet reader (`MultiTable`);
* the Venmo payment/refund direction logic with Python local-variable
  scoping made explicit (`Venmo`).

Python's insertion-ordered `dict` is modelled as an association list; its
`setdefault(k, []).append(v)` idiom is `Recon.setdefaultAppend`.  `Decimal`
is modelled as `ℚ` (exact decimal arithmetic; the claims never involve the
`NaN`/`Infinity` special forms, which are therefore not modelled).
-/

namespace Recon

variable {K T : Type} [DecidableEq K]

/-- Python `d.setdefault(k, []).append(v)` on an insertion-ordered dict:
if `k` is present, append `v` to its list in place; otherwise add the
entry `(k, [v])` at the end. -/
def setdefaultAppend (d : List (K × List T)) (k : K) (v : T) : List (K × List T) :=
  match d with
  | [] => [(k, [v])]
  | (k', vs) :: rest =>
    if k' = k then (k', vs ++ [v]) :: rest
    else (k', vs) :: setdefaultAppend rest k v

/-- Python `d.get(k, [])`. -/
def getGroup (d : List (K × List T)) (k : K) : List T :=
  match d with
  | [] => []
  | (k', vs) :: rest => if k' = k then vs else getGroup rest k

/-- Python `k in d`. -/
def containsKey (d : List (K × List T)) (k : K) : Bool :=
  match d with
  | [] => false
  | (k', _) :: rest => k' = k || containsKey rest k

/-- One step of the journal scan: a journal entry that carries an identity
key (`some k`) is grouped under that key; an entry without the source's
metadata key is skipped (`if ... not in meta: continue`). -/
def scanStep (d : List (K × List T)) (e : Option K × T) : List (K × List T) :=
  match e.1 with
  | some k => setdefaultAppend d k e.2
  | none => d

/-- The journal scan shared by the six list-grouping sources
(`adp_payroll_source.py` lines 98-104, `venmo_json_source.py` lines
164-171, `cashapp_csv_source.py` lines 140-147, `boa_mortgage_csv_source.py`
lines 64-70, `workday_payroll_source.py` lines 59-70,
`emburse_chrome_river_source.py` lines 76-82): build
`existing_transactions_by_<key>` by grouping the keyed journal
transactions, in journal order.  A journal transaction is `(Option K × T)`:
its extracted identity key (None when the source's metadata key is absent)
and the transaction itself. -/
def scanJournal (journal : List (Option K × T)) : List (K × List T) :=
  journal.foldl scanStep []

/-- Grouping of the synthesized transactions by identity key
(`imported_transactions_by_<key>.setdefault(key, []).append(txn)`). -/
def groupSynth (synth : List (K × T)) : List (K × List T) :=
  scanJournal (synth.map (fun e => (some e.1, e.2)))

/-- The pending-entry selection shared by the six list-grouping sources:
a synthesized transaction is reported as pending exactly when its identity
key is absent from `existing_transactions_by_<key>`
(`if key not in existing...: results.add_pending_entry(...)`). -/
def pendingOf (existing : List (K × List T)) (synth : List (K × T)) : List (K × T) :=
  synth.filter (fun e => !containsKey existing e.1)

/-- One iteration of the invalid-reference loop: for the entry
`(key, transactions)` of the existing dict, with
`num_expected = len(imported.get(key, []))`, skip the entry when
`len(transactions) == num_expected`, else emit one
`InvalidSourceReference(len(transactions) - num_expected, transactions)`
(the key is kept alongside for bookkeeping). -/
def reportFor (imported : List (K × List T)) (e : K × List T) : Option (K × Int × List T) :=
  if e.2.length = (getGroup imported e.1).length then none
  else some (e.1, (e.2.length : Int) - ((getGroup imported e.1).length : Int), e.2)

/-- The invalid-reference loop shared by the six list-grouping sources
(`adp_payroll_source.py` lines 187-193 and its textual twins in the Venmo,
Cash App, BoA, Workday and Emburse sources), with the loop's key kept for
bookkeeping. -/
def invalidRefsKeyed (existing imported : List (K × List T)) : List (K × Int × List T) :=
  existing.filterMap (reportFor imported)

/-- The invalid references actually reported (an `InvalidSourceReference`
carries only the excess count and the transaction list, not the key). -/
def invalidRefs (existing imported : List (K × List T)) : List (Int × List T) :=
  (invalidRefsKeyed existing imported).map (fun r => (r.2.1, r.2.2))

/-- The journal transactions carrying identity key `k`, in journal order. -/
def entriesFor (k : K) (journal : List (Option K × T)) : List T :=
  journal.filterMap (fun e => if e.1 = some k then some e.2 else none)

/-- The synthesized transactions carrying identity key `k`. -/
def synthFor (k : K) (synth : List (K × T)) : List T :=
  entriesFor k (synth.map (fun e => (some e.1, e.2)))

/-- The reconciliation outcome of one `prepare` call of a list-grouping
source, as a function of the keyed journal and the synthesized
transactions: the pending entries and the invalid references
(`existing := scanJournal journal` is inlined). -/
def prepare (journal : List (Option K × T)) (synth : List (K × T)) :
    List (K × T) × List (Int × List T) :=
  (pendingOf (scanJournal journal) synth,
   invalidRefs (scanJournal journal) (groupSynth synth))

end Recon

namespace Costco

variable {K T : Type} [DecidableEq K]

/-- Python `d[k] = v` on an insertion-ordered dict: replace the value in
place when the key is present, else add the entry at the end.  The Costco
source uses plain assignment (`costco_receipt_source.py` lines 77, 201)
where every other source uses `setdefault(...).append(...)`, so one
barcode keeps at most one transaction. -/
def setItem (d : List (K × T)) (k : K) (v : T) : List (K × T) :=
  match d with
  | [] => [(k, v)]
  | (k', v') :: rest =>
    if k' = k then (k', v) :: rest
    else (k', v') :: setItem rest k v

/-- Python `k in d`. -/
def containsKeyI (d : List (K × T)) (k : K) : Bool :=
  match d with
  | [] => false
  | (k', _) :: rest => k' = k || containsKeyI rest k

/-- The Costco journal scan (`costco_receipt_source.py` lines 72-77): a
journal transaction whose metadata carries `costco_receipt_barcode`
overwrites `existing_transactions_by_barcode[barcode]`. -/
def scanJournal (journal : List (Option K × T)) : List (K × T) :=
  journal.foldl
    (fun d e =>
      match e.1 with
      | some k => setItem d k e.2
      | none => d) []

/-- `imported_transactions_by_barcode[barcode] = txn`
(`costco_receipt_source.py` line 201), over the receipts in file order. -/
def buildImported (orders : List (K × T)) : List (K × T) :=
  orders.foldl (fun d e => setItem d e.1 e.2) []

/-- Pending selection (`costco_receipt_source.py` lines 202-203): a
receipt transaction is pending when its barcode is absent from the
existing dict. -/
def pendingOf (existing : List (K × T)) (orders : List (K × T)) : List (K × T) :=
  orders.filter (fun e => !containsKeyI existing e.1)

/-- The Costco invalid-reference loop (`costco_receipt_source.py` lines
205-209): for each `(barcode, txn)` of the existing dict, when the barcode
is absent from the imported dict, emit `InvalidSourceReference(1, (txn,
None))` — a hard-coded excess of 1 carrying the single stored transaction.
-/
def invalidRefs (existing imported : List (K × T)) : List (Int × T) :=
  existing.filterMap (fun e =>
    if containsKeyI imported e.1 then none else some (1, e.2))

/-- The reconciliation outcome of one Costco `prepare` call. -/
def prepare (journal : List (Option K × T)) (orders : List (K × T)) :
    List (K × T) × List (Int × T) :=
  (pendingOf (scanJournal journal) orders,
   invalidRefs (scanJournal journal) (buildImported orders))

end Costco

namespace PyStr

/-- `s.replace(c, '')` for a single-character pattern: remove every
occurrence of the character. -/
def removeAll (c : Char) (s : List Char) : List Char :=
  s.filter (fun a => a ≠ c)

/-- An ASCII whitespace character (the characters Python's `str.strip`
and `Decimal` remove from the ends; the data never contains the wider
Unicode whitespace set). -/
def isPySpace (c : Char) : Bool :=
  c = ' ' ∨ c = '\t' ∨ c = '\n' ∨ c = '\r' ∨ c = '\x0b' ∨ c = '\x0c'

/-- `s.strip()`: drop leading and trailing whitespace. -/
def stripChars (s : List Char) : List Char :=
  (((s.dropWhile isPySpace).reverse).dropWhile isPySpace).reverse

/-- Python `s.split(sep)` for a one-character separator. -/
def splitOnChar (sep : Char) : List Char → List (List Char)
  | [] => [[]]
  | c :: cs =>
    match splitOnChar sep cs with
    | [] => [[c]]
    | g :: gs => if c = sep then [] :: g :: gs else (c :: g) :: gs

/-- The `sanitize` method defined identically by the Venmo and Cash App
sources: `re.sub(r'[^ -~]+', '', string)` removes every character outside
the printable-ASCII range, which is the same as filtering them out. -/
def sanitize (s : String) : String :=
  (s.toList.filter (fun c => ' ' ≤ c ∧ c ≤ '~')).asString

/-- Python slicing `s[:-n]`: everything but the last `n` characters. -/
def dropRightStr (s : String) (n : Nat) : String :=
  (s.toList.take (s.toList.length - n)).asString

/-- `charsStarts s p`: the character sequence `s` starts with `p`. -/
def charsStarts : List Char → List Char → Bool
  | _, [] => true
  | [], _ :: _ => false
  | c :: cs, p :: ps => c = p && charsStarts cs ps

/-- Python `s.startswith(p)`. -/
def startswith (s p : String) : Bool :=
  charsStarts s.toList p.toList

end PyStr

namespace PyNum

/-- The numeric value of a decimal digit, `none` for any other character. -/
def digitVal (c : Char) : Option Nat :=
  if '0' ≤ c ∧ c ≤ '9' then some (c.toNat - '0'.toNat) else none

/-- Consume a maximal run of decimal digits: value, digit count, rest. -/
def takeDigits : List Char → Nat × Nat × List Char
  | [] => (0, 0, [])
  | c :: cs =>
    match digitVal c with
    | some d =>
      let r := takeDigits cs
      (d * 10 ^ r.2.1 + r.1, r.2.1 + 1, r.2.2)
    | none => (0, 0, c :: cs)

/-- An optional fractional part: `.` followed by (possibly zero) digits. -/
def takeFrac : List Char → Nat × Nat × List Char
  | '.' :: cs => takeDigits cs
  | cs => (0, 0, cs)

/-- An optional exponent part: `e`/`E`, optional sign, at least one digit.
Returns the signed exponent and the rest; `none` on a malformed exponent.
-/
def takeExp : List Char → Option (Int × List Char)
  | [] => some (0, [])
  | c :: cs =>
    if c = 'e' ∨ c = 'E' then
      match cs with
      | '+' :: cs2 =>
        let r := takeDigits cs2
        if r.2.1 = 0 then none else some ((r.1 : Int), r.2.2)
      | '-' :: cs2 =>
        let r := takeDigits cs2
        if r.2.1 = 0 then none else some (-(r.1 : Int), r.2.2)
      | cs2 =>
        let r := takeDigits cs2
        if r.2.1 = 0 then none else some ((r.1 : Int), r.2.2)
    else some (0, c :: cs)

/-- The exact rational value of a parsed decimal literal
`[-] ip . fp e exp` where `fp` has `nf` digits: built with integer
arithmetic and `mkRat` so that it evaluates inside the kernel. -/
def buildRat (neg : Bool) (ip fp nf : Nat) (e : Int) : ℚ :=
  let num : Int := (ip * 10 ^ nf + fp : Nat)
  let num : Int := if neg then -num else num
  match e with
  | Int.ofNat k => mkRat (num * (10 : Int) ^ k) (10 ^ nf)
  | Int.negSucc k => mkRat num (10 ^ nf * 10 ^ (k + 1))

/-- The numeric-literal forms accepted by Python's `Decimal` string
constructor: optional sign, digits with an optional fractional part (at
least one digit in total), an optional exponent, nothing else.  The
special forms (`NaN`, `Infinity`), which never occur in this repository's
data and which no claim involves, are not modelled; malformed input is
`none` (Python raises `InvalidOperation`). -/
def parseDecimalChars (cs : List Char) : Option ℚ :=
  let sgncs : Bool × List Char :=
    match cs with
    | '+' :: r => (false, r)
    | '-' :: r => (true, r)
    | r => (false, r)
  let ir := takeDigits sgncs.2
  let fr := takeFrac ir.2.2
  if ir.2.1 + fr.2.1 = 0 then none
  else
    match takeExp fr.2.2 with
    | none => none
    | some er =>
      if er.2 = [] then some (buildRat sgncs.1 ir.1 fr.1 fr.2.1 er.1)
      else none

/-- The `Decimal` constructor on a character sequence: Python strips
surrounding whitespace first. -/
def pyDecimalChars (cs : List Char) : Option ℚ :=
  parseDecimalChars (PyStr.stripChars cs)

/-- `Decimal(s)` on a string. -/
def pyDecimal (s : String) : Option ℚ :=
  pyDecimalChars s.toList

/-- A nonempty all-digit character sequence read as a natural number. -/
def decDigits (cs : List Char) : Option Nat :=
  if cs ≠ [] ∧ cs.all (fun c => '0' ≤ c ∧ c ≤ '9') then
    some (cs.foldl (fun n c => n * 10 + (c.toNat - '0'.toNat)) 0)
  else none

end PyNum

/-- A calendar date as produced by `datetime.date`. -/
structure PyDate where
  year : Nat
  month : Nat
  day : Nat
deriving Repr, DecidableEq

/-- `datetime.strptime(s, '%Y-%m-%d').date()`: dash-separated numeric
fields with month 1-12 and day 1-31 (the full per-month day-count
validation Python performs is not needed by any claim and is approximated
by the 1-31 bound). -/
def parseYmd (s : String) : Option PyDate :=
  match PyStr.splitOnChar '-' s.toList with
  | [ys, ms, ds] =>
    match PyNum.decDigits ys, PyNum.decDigits ms, PyNum.decDigits ds with
    | some y, some m, some d =>
      if 1 ≤ m ∧ m ≤ 12 ∧ 1 ≤ d ∧ d ≤ 31 then some ⟨y, m, d⟩ else none
    | _, _, _ => none
  | _ => none

/-- A valid `%H:%M:%S` time-of-day string. -/
def validHms (t : List Char) : Bool :=
  match PyStr.splitOnChar ':' t with
  | [hs, ms, ss] =>
    match PyNum.decDigits hs, PyNum.decDigits ms, PyNum.decDigits ss with
    | some h, some m, some sec => h ≤ 23 && m ≤ 59 && sec ≤ 59
    | _, _, _ => false
  | _ => false

/-- `datetime.strptime(s, '%Y-%m-%d<sep>%H:%M:%S').date()` where `<sep>`
is `T` for the Venmo JSON feed and a space for the Cash App CSV. -/
def parseYmdHms (sep : Char) (s : String) : Option PyDate :=
  match PyStr.splitOnChar sep s.toList with
  | [d, t] => if validHms t then parseYmd d.asString else none
  | _ => none

/-- `beancount.core.data.Amount`: a currency code and an exact decimal
number (`ℚ` models `Decimal`). -/
structure Amount where
  currency : String
  number : ℚ
deriving Repr, DecidableEq

/-- Unary minus on `Amount` (negates the number, keeps the currency). -/
def Amount.neg (a : Amount) : Amount :=
  { a with number := -a.number }

namespace BoA

/-- `BoAMortgageCsvSource._to_amount` (`boa_mortgage_csv_source.py` lines
41-46): `'--'` is exactly zero, otherwise
`Decimal(s.replace('$', '').replace(',', '').strip())`; the currency is
always `USD`.  A malformed number is a fatal parse error (`none`). -/
def toAmount (s : String) : Option Amount :=
  if s = "--" then some { currency := "USD", number := 0 }
  else
    match PyNum.pyDecimalChars
        (PyStr.stripChars (PyStr.removeAll ',' (PyStr.removeAll '$' s.toList))) with
    | some q => some { currency := "USD", number := q }
    | none => none

end BoA

namespace Emburse

/-- `EmburseChromeRiverSource._to_amount` (`emburse_chrome_river_source.py`
lines 66-71), textually identical to the BoA parser. -/
def toAmount (s : String) : Option Amount :=
  if s = "--" then some { currency := "USD", number := 0 }
  else
    match PyNum.pyDecimalChars
        (PyStr.stripChars (PyStr.removeAll ',' (PyStr.removeAll '$' s.toList))) with
    | some q => some { currency := "USD", number := q }
    | none => none

end Emburse

/-- `beancount_import.matching.FIXME_ACCOUNT`. -/
def FIXME_ACCOUNT : String := "Expenses:FIXME"

/-- `os.path.relpath(filename, start=data_dir)` in the only case this
repository exercises: `filename` lying under `data_dir`.  The
`..`-producing general cases never occur in the sources. -/
def relpath (filename dataDir : String) : String :=
  if (dataDir.toList ++ ['/']).isPrefixOf filename.toList then
    (filename.toList.drop (dataDir.toList.length + 1)).asString
  else filename

namespace CashApp

/-- A metadata value in a Cash App posting: a string, or the raw date
object stored under the `'date'` key. -/
inductive MetaVal
  | ofStr (v : String)
  | ofDate (v : PyDate)
deriving Repr, DecidableEq

structure Posting where
  account : String
  units : Amount
  meta : List (String × MetaVal)
deriving Repr, DecidableEq

/-- A transaction as synthesized by the Cash App source.  The constant
fields (`flag='*'`, empty tags/links, `cost=price=None` on postings) are
omitted. -/
structure Transaction where
  date : PyDate
  payee : String
  narration : String
  meta : List (String × MetaVal)
  postings : List Posting
deriving Repr, DecidableEq

/-- `CashAppCsvSource.make_payment_transaction` (`cashapp_csv_source.py`
lines 65-97). -/
def makePaymentTransaction (cashappAccount txnId : String) (date : PyDate)
    (txnType payee notes : String) (amount : Amount) : Transaction :=
  { date := date
    payee := payee
    narration := "CashApp payment: " ++ PyStr.sanitize notes
    meta := []
    postings := [
      { account := cashappAccount
        units := amount
        meta := [("date", MetaVal.ofDate date),
                 ("cashapp_transaction_id", MetaVal.ofStr txnId),
                 ("cashapp_payee", MetaVal.ofStr payee),
                 ("cashapp_type", MetaVal.ofStr txnType),
                 ("cashapp_description", MetaVal.ofStr (PyStr.sanitize notes))] },
      { account := FIXME_ACCOUNT
        units := Amount.neg amount
        meta := [] } ] }

/-- `CashAppCsvSource.make_transfer_transaction` (`cashapp_csv_source.py`
lines 99-134). -/
def makeTransferTransaction (cashappAccount txnId : String) (date : PyDate)
    (transferTo : String) (amount : Amount)
    (forPaymentNotes forPayee : Option String) : Transaction :=
  { date := date
    payee := ""
    narration := "CashApp transfer to/from " ++ transferTo
    meta := []
    postings := [
      { account := cashappAccount
        units := amount
        meta :=
          [("date", MetaVal.ofDate date),
           ("cashapp_transaction_id", MetaVal.ofStr txnId),
           ("cashapp_type", MetaVal.ofStr "transfer")] ++
          (match forPaymentNotes, forPayee with
           | some notes, some payee =>
             [("cashapp_payee", MetaVal.ofStr (PyStr.sanitize payee)),
              ("cashapp_description", MetaVal.ofStr (PyStr.sanitize notes))]
           | _, _ => []) },
      { account := FIXME_ACCOUNT
        units := Amount.neg amount
        meta := [] } ] }

/-- How a Cash App row can abort the run: missing column (`IndexError`),
bad date (`ValueError`), bad amount (`InvalidOperation`), the fee
assertion at `cashapp_csv_source.py` line 161, or the unknown-type
assertion at line 195. -/
inductive RunError
  | indexError
  | dateError
  | amountError
  | feeAssertFailed (fee : String)
  | unknownType (t : String)
deriving Repr, DecidableEq

/-- `Decimal(row[4].replace('$', ''))` (`cashapp_csv_source.py` line 159):
the Cash App amount parse strips only the dollar sign. -/
def parseAmountNumber (s : String) : Option ℚ :=
  PyNum.pyDecimalChars (PyStr.removeAll '$' s.toList)

/-- Processing of one Cash App CSV data row (`cashapp_csv_source.py`
lines 155-195): unpack the columns, parse date and amount, assert the fee
is `'$0'`, then dispatch on the transaction type, producing the one or
two transactions of that row. -/
def processRow (cashappAccount : String) (row : List String) :
    Except RunError (List Transaction) :=
  match row.get? 0, row.get? 1, row.get? 2, row.get? 3, row.get? 4, row.get? 5 with
  | some txnId, some dateStr, some txnType, some currency, some amountStr, some fee =>
    match parseYmdHms ' ' (PyStr.dropRightStr dateStr 4) with
    | none => Except.error RunError.dateError
    | some date =>
      match parseAmountNumber amountStr with
      | none => Except.error RunError.amountError
      | some number =>
        if fee = "$0" then
          match row.get? 11, row.get? 12, row.get? 13 with
          | some notes, some payee, some account =>
            let amount : Amount := { currency := currency, number := number }
            if txnType = "Received P2P" ∨ txnType = "Sent P2P" then
              let payment := makePaymentTransaction cashappAccount txnId date
                txnType payee notes amount
              if account ≠ "Your Cash" then
                Except.ok [makeTransferTransaction cashappAccount txnId date account
                  (Amount.neg amount) (some notes) (some payee), payment]
              else
                Except.ok [payment]
            else if txnType = "Cash out" then
              Except.ok [makeTransferTransaction cashappAccount txnId date "bank"
                amount none none]
            else Except.error (RunError.unknownType txnType)
          | _, _, _ => Except.error RunError.indexError
        else Except.error (RunError.feeAssertFailed fee)
  | _, _, _, _, _, _ => Except.error RunError.indexError

/-- Processing of a list of data rows, accumulating the synthesized
transactions; the first failure aborts the whole run (an assertion
propagates out of `prepare`). -/
def processRows (cashappAccount : String) :
    List (List String) → List Transaction → Except RunError (List Transaction)
  | [], acc => Except.ok acc
  | row :: rest, acc =>
    match processRow cashappAccount row with
    | Except.error e => Except.error e
    | Except.ok ts => processRows cashappAccount rest (acc ++ ts)

/-- One whole run over the data rows of the (sorted) CSV files. -/
def processRun (cashappAccount : String) (rows : List (List String)) :
    Except RunError (List Transaction) :=
  processRows cashappAccount rows []

end CashApp

namespace Adp

/-- A JSON money object `{'currencyCode': ..., 'amountValue': ...}`. -/
structure JsonAmount where
  currencyCode : String
  amountValue : ℚ
deriving Repr, DecidableEq

/-- One element of `payStatement.earnings`; `earningAmount` is optional
(`if 'earningAmount' not in earning: continue`). -/
structure Earning where
  earningCodeName : String
  earningAmount : Option JsonAmount
deriving Repr, DecidableEq

/-- One element of `payStatement.deductions`. -/
structure Deduction where
  deductionCategoryCodeName : String
  codeName : String
  deductionAmount : Option JsonAmount
deriving Repr, DecidableEq

/-- The `nameCode` object of a memo. -/
structure NameCode where
  codeValue : String
  shortName : String
deriving Repr, DecidableEq

/-- One element of `payStatement.memos`. -/
structure Memo where
  nameCode : NameCode
  memoAmount : Option JsonAmount
deriving Repr, DecidableEq

/-- The `payStatement` object of one ADP JSON file. -/
structure PayStatement where
  payDate : String
  earnings : List Earning
  deductions : List Deduction
  memos : List Memo
deriving Repr, DecidableEq

/-- The ADP source configuration: maps are partial (a missing key raises
`KeyError`, a fatal configuration error modelled as `none`). -/
structure Config where
  company_name : String
  earning_account_map : String → Option String
  deduction_code_and_date_to_account : String → PyDate → Option String
  memo_map : String → Option (String × String)

structure Posting where
  account : String
  units : Amount
  meta : List (String × String)
deriving Repr, DecidableEq

/-- A transaction as synthesized by the ADP source (constant fields
omitted as in the other sources). -/
structure Transaction where
  date : PyDate
  payee : String
  narration : String
  meta : List (String × String)
  postings : List Posting
deriving Repr, DecidableEq

/-- `AdpPayrollSource.to_amount` (`adp_payroll_source.py` lines 91-92). -/
def toAmount (j : JsonAmount) : Amount :=
  { currency := j.currencyCode, number := j.amountValue }

/-- The earnings loop (`adp_payroll_source.py` lines 125-138): skip an
earning without an amount; look the description up in
`earning_account_map` (fatal on miss); the posting flips the sign because
ADP reports earnings positive and Income is negative. -/
def earningPostings (cfg : Config) (es : List Earning) : Option (List Posting) :=
  es.foldlM (fun acc e =>
    match e.earningAmount with
    | none => some acc
    | some amt =>
      let desc := "Earning: " ++ (PyStr.stripChars e.earningCodeName.toList).asString
      match cfg.earning_account_map desc with
      | none => none
      | some account =>
        some (acc ++ [{ account := account
                        units := Amount.neg (toAmount amt)
                        meta := [("adp_payroll_posting_description", desc)] }])) []

/-- The deductions loop (`adp_payroll_source.py` lines 140-154): ADP
reports deductions negative, so the sign is flipped; the account comes
from the `deduction_code_and_date_to_account` callback (fatal on miss). -/
def deductionPostings (cfg : Config) (date : PyDate) (ds : List Deduction) :
    Option (List Posting) :=
  ds.foldlM (fun acc d =>
    match d.deductionAmount with
    | none => some acc
    | some amt =>
      let amount := Amount.neg (toAmount amt)
      let code := d.deductionCategoryCodeName ++ ": " ++
        (PyStr.stripChars d.codeName.toList).asString
      match cfg.deduction_code_and_date_to_account code date with
      | none => none
      | some account =>
        some (acc ++ [{ account := account
                        units := amount
                        meta := [("adp_payroll_posting_description", code)] }])) []

/-- The memos loop (`adp_payroll_source.py` lines 156-178): a memo whose
code is configured yields an income posting and an offsetting expense
posting. -/
def memoPostings (cfg : Config) (ms : List Memo) : Option (List Posting) :=
  ms.foldlM (fun acc m =>
    match cfg.memo_map m.nameCode.codeValue with
    | none => some acc
    | some accounts =>
      match m.memoAmount with
      | none => some acc
      | some amt =>
        let desc := (PyStr.stripChars m.nameCode.shortName.toList).asString
        some (acc ++
          [{ account := accounts.1
             units := Amount.neg (toAmount amt)
             meta := [("adp_payroll_posting_description", desc)] },
           { account := accounts.2
             units := toAmount amt
             meta := [("adp_payroll_posting_description", desc)] }])) []

/-- The per-file transaction synthesis of `AdpPayrollSource.prepare`
(`adp_payroll_source.py` lines 112-178): parse the pay date, build the
transaction with `adp_payroll_source_file` metadata set to the file's
path relative to the data directory, then append the earning, deduction
and memo postings in that order.  `none` is a fatal parse or
configuration error. -/
def makeTransaction (cfg : Config) (data : PayStatement) (relativeFilename : String) :
    Option Transaction := do
  let date ← parseYmd data.payDate
  let ep ← earningPostings cfg data.earnings
  let dp ← deductionPostings cfg date data.deductions
  let mp ← memoPostings cfg data.memos
  some { date := date
         payee := cfg.company_name
         narration := "Payroll"
         meta := [("adp_payroll_source_file", relativeFilename)]
         postings := ep ++ dp ++ mp }

/-- A concrete configuration exercising the payroll scenario: one earning
code and the fiscal-year-dependent federal tax account of the example
configuration in the module docstring. -/
def demoConfig : Config :=
  { company_name := "Hooli"
    earning_account_map := fun desc =>
      if desc = "Earning: Regular" then some "Income:Hooli:Salary:Base" else none
    deduction_code_and_date_to_account := fun code date =>
      if code = "Taxes: Federal Income Tax" then
        some ("Expenses:Tax:FY" ++ toString date.year ++ ":Income:Federal")
      else none
    memo_map := fun _ => none }

/-- The scenario pay statement: one earning of 1000.00 and one deduction
of -50.00 for `Taxes: Federal Income Tax`, pay date 2024-01-15. -/
def demoStatement : PayStatement :=
  { payDate := "2024-01-15"
    earnings := [{ earningCodeName := "Regular"
                   earningAmount := some { currencyCode := "USD", amountValue := 1000 } }]
    deductions := [{ deductionCategoryCodeName := "Taxes"
                     codeName := "Federal Income Tax"
                     deductionAmount := some { currencyCode := "USD", amountValue := -50 } }]
    memos := [] }

end Adp

namespace Workday

/-- Round-half-even at integer precision: the rounding `round(Decimal, 2)`
applies after the caller scales by 100. -/
def roundHalfEven (q : ℚ) : ℤ :=
  if q - (⌊q⌋ : ℚ) < mkRat 1 2 then ⌊q⌋
  else if mkRat 1 2 < q - (⌊q⌋ : ℚ) then ⌊q⌋ + 1
  else if ⌊q⌋ % 2 = 0 then ⌊q⌋ else ⌊q⌋ + 1

/-- `WorkdayPayrollSource._to_amount` (`workday_payroll_source.py` lines
44-52): `None` for NaN input (modelled as `none`); flip the sign when the
amount is positive and the account is income/equity/liability-classified;
then flip when the (possibly already flipped) amount is negative and the
account is expense/asset-classified; finally round to two decimal places
(`round(Decimal(amount), 2)`; the float-to-`Decimal` conversion is exact
on the value, and the result `r` of rounding `100·a` is stored as
`r/100`). -/
def toAmount (amount : Option ℚ) (account : String) : Option Amount :=
  match amount with
  | none => none
  | some a =>
    let a1 :=
      if 0 < a ∧ (PyStr.startswith account "Income:" ||
          PyStr.startswith account "Equity:" ||
          PyStr.startswith account "Liabilities:") = true then -a else a
    let a2 :=
      if a1 < 0 ∧ (PyStr.startswith account "Expenses:" ||
          PyStr.startswith account "Assets:") = true then -a1 else a1
    some { currency := "USD", number := mkRat (roundHalfEven (a2 * 100)) 100 }

end Workday

namespace MultiTable

/-- A spreadsheet row: cell values, `none` for an empty cell (openpyxl
yields `None`). -/
abbrev Row := List (Option String)

/-- `MultiTableReader._drop_trailing_nones` (`multitable_reader.py` lines
11-14).  The Python implementation pops the list *in place*, so every row
inspected by `_is_section_title` is stripped of its trailing `None` cells
for all later uses as well; the embedding strips each row once, up front.
-/
def dropTrailingNones (l : Row) : Row :=
  ((l.reverse.dropWhile (fun c => c.isNone)).reverse)

/-- `MultiTableReader._is_section_title` (`multitable_reader.py` lines
8-9): exactly one cell remains after dropping trailing `None`s (that cell
is then necessarily not `None`). -/
def isSectionTitle (row : Row) : Bool :=
  (dropTrailingNones row).length = 1

/-- Python `d[k] = v` on the insertion-ordered `grouped_rows` dict
(`grouped_rows[cur_table_name] = []` resets an existing section in
place). -/
def setItem (d : List (String × List Row)) (k : String) (v : List Row) :
    List (String × List Row) :=
  match d with
  | [] => [(k, v)]
  | (k', v') :: rest =>
    if k' = k then (k', v) :: rest
    else (k', v') :: setItem rest k v

/-- `grouped_rows[cur_table_name].append(row)`: `none` is the `KeyError`
raised when the key is absent. -/
def appendRow (d : List (String × List Row)) (k : String) (row : Row) :
    Option (List (String × List Row)) :=
  match d with
  | [] => none
  | (k', rows) :: rest =>
    if k' = k then some ((k', rows ++ [row]) :: rest)
    else
      match appendRow rest k row with
      | none => none
      | some rest' => some ((k', rows) :: rest')

/-- The grouping loop of `MultiTableReader.read_tables`
(`multitable_reader.py` lines 29-36), with the in-place row mutation of
`_drop_trailing_nones` made explicit: every row is stripped of its
trailing `None`s; a stripped row of length one (its cell then not
`None`) opens/resets the section named by that cell, any other row is
appended to the current section (`none` models the `KeyError` on a row
before the first title). -/
def buildGrouped : List Row → List (String × List Row) → Option String →
    Option (List (String × List Row))
  | [], d, _ => some d
  | row :: rest, d, cur =>
    let r := dropTrailingNones row
    if r.length = 1 then
      match r with
      | [some name] => buildGrouped rest (setItem d name []) (some name)
      | _ => none
    else
      match cur with
      | none => none
      | some name =>
        match appendRow d name r with
        | none => none
        | some d' => buildGrouped rest d' cur

/-- The row partition computed by `read_tables` (the subsequent
per-section DataFrame construction consumes these grouped rows and is not
part of any claim). -/
def readTablesGrouped (rows : List Row) : Option (List (String × List Row)) :=
  buildGrouped rows [] none

/-- Modelled from the claim's wording, for comparison with
`readTablesGrouped`: partition the rows into named tables, a title row
(exactly one non-empty leading cell after dropping trailing empty cells)
opening a new table named by that cell and every subsequent non-title row
being appended to the most recently opened table. -/
def buildByClaim : List Row → List (String × List Row) →
    Option (List (String × List Row))
  | [], acc => some acc
  | row :: rest, acc =>
    let r := dropTrailingNones row
    if r.length = 1 then
      match r with
      | [some name] => buildByClaim rest (acc ++ [(name, [])])
      | _ => none
    else
      match acc.getLast? with
      | none => none
      | some e =>
        buildByClaim rest (acc.dropLast ++ [(e.1, e.2 ++ [r])])

/-- The claim's partition function on a whole row list. -/
def readTablesByClaim (rows : List Row) : Option (List (String × List Row)) :=
  buildByClaim rows []

/-- The names of the section-title rows, in order. -/
def titlesOf (rows : List Row) : List String :=
  rows.filterMap (fun row =>
    match dropTrailingNones row with
    | [some name] => some name
    | _ => none)

end MultiTable

namespace Venmo

/-- A Venmo user object, after resolving the optional `'user'` nesting
that `get_user_info` handles; an absent or `null` attribute is `none`. -/
structure User where
  username : Option String
  display_name : Option String
deriving Repr, DecidableEq

/-- `get_user_info(u, 'username')`. -/
def getUsername (u : User) : String :=
  match u.username with
  | some v => v
  | none => "(unknown)"

/-- `get_user_info(u, 'display_name')`. -/
def getDisplayName (u : User) : String :=
  match u.display_name with
  | some v => v
  | none => "(unknown)"

/-- `get_user_info(u, 'username', 'display_name')`. -/
def getUsernameOrDisplay (u : User) : String :=
  match u.username with
  | some v => v
  | none => getDisplayName u

/-- The payment object of a payment event (or the nested
`refund.payment` object of a refund event). -/
structure Payment where
  actor : User
  target : User
  action : String
  note : String
  amount : ℚ
deriving Repr, DecidableEq

/-- `transaction['funding_source']` when not `null`. -/
structure FundingSource where
  sourceType : String
  name : String
deriving Repr, DecidableEq

/-- One element of `data.transactions`, shaped by its `type` tag exactly
as `prepare` consumes it (`venmo_json_source.py` lines 179-253). -/
inductive Event
  | payment (id dt : String) (amount : ℚ) (fundingSource : Option FundingSource)
      (payment : Payment)
  | refund (id dt : String) (amount : ℚ) (fundingSource : Option FundingSource)
      (payment : Payment)
  | transfer (id dt : String) (amount : ℚ) (destinationName : String)
  | disbursement (id dt : String) (amount : ℚ) (note : String) (merchant : User)
  | other (txnType : String)
deriving Repr, DecidableEq

/-- How processing a Venmo event can abort: the `UnboundLocalError` from
using `payee`/`amount_coef` before any assignment, the `assert False` on
an unknown action, a bad `datetime_created`, or the `assert False` on an
unknown transaction type. -/
inductive RunError
  | unboundLocalError
  | assertActionFailed (action : String)
  | dateError
  | unknownType (t : String)
deriving Repr, DecidableEq

/-- The Python local variables `payee` and `amount_coef` of `prepare`:
function-scoped, so a binding made while processing one event is still
visible while processing the later events of the same `prepare` call. -/
structure Locals where
  payee : Option User
  amount_coef : Option Int
deriving Repr, DecidableEq

structure Posting where
  account : String
  units : Amount
  meta : List (String × String)
deriving Repr, DecidableEq

structure Transaction where
  date : PyDate
  payee : String
  narration : String
  meta : List (String × String)
  postings : List Posting
deriving Repr, DecidableEq

/-- `VenmoJsonSource.make_payment_transaction` (`venmo_json_source.py`
lines 78-109); only the `note`/`amount`/`action` fields of the payment
dict are consumed, which lets the synthetic disbursement payment dict
(lines 244-248) reuse this. -/
def makePaymentTransaction (venmoAssetsAccount txnId : String) (date : PyDate)
    (txnType note : String) (paymentAmount : ℚ) (action : String)
    (payee : User) (amountCoef : Int) : Transaction :=
  { date := date
    payee := getDisplayName payee
    narration := "Venmo " ++ txnType ++ ": " ++ PyStr.sanitize note
    meta := []
    postings := [
      { account := venmoAssetsAccount
        units := { currency := "USD", number := (amountCoef : ℚ) * paymentAmount }
        meta := [("venmo_transaction_id", txnId),
                 ("venmo_payee", getUsernameOrDisplay payee),
                 ("venmo_type", action),
                 ("venmo_description", PyStr.sanitize note)] },
      { account := FIXME_ACCOUNT
        units := { currency := "USD", number := (-amountCoef : ℚ) * paymentAmount }
        meta := [] } ] }

/-- `VenmoJsonSource.make_transfer_transaction` (`venmo_json_source.py`
lines 111-145). -/
def makeTransferTransaction (venmoAssetsAccount txnId : String) (date : PyDate)
    (transferTo : String) (amountCoef : Int) (amount : ℚ)
    (forPayment : Option Payment) (forPayee : Option User) : Transaction :=
  { date := date
    payee := ""
    narration := "Venmo transfer to " ++ transferTo
    meta := []
    postings := [
      { account := venmoAssetsAccount
        units := { currency := "USD", number := (amountCoef : ℚ) * amount }
        meta :=
          [("venmo_transaction_id", txnId), ("venmo_type", "transfer")] ++
          (match forPayment, forPayee with
           | some payment, some payee =>
             [("venmo_payee", getUsernameOrDisplay payee),
              ("venmo_description", PyStr.sanitize payment.note)]
           | _, _ => []) },
      { account := FIXME_ACCOUNT
        units := { currency := "USD", number := (-amountCoef : ℚ) * amount }
        meta := [] } ] }

/-- The payment/refund branch of `prepare` (`venmo_json_source.py` lines
182-232) with Python's local-variable scoping made explicit: when the
payment's target (or actor) username equals the configured
`self_username`, `payee` and `amount_coef` are (re)bound — with an
`assert False` on an action other than `pay`/`charge`; when *neither*
matches, the locals are left untouched.  A refund then executes
`amount_coef *= -1`, reading (and rebinding) the local.  Finally the
funding-source test decides whether a transfer transaction precedes the
payment transaction; building them reads `payee` and `amount_coef`, so an
unbound local raises `UnboundLocalError` before any date parsing. -/
def processPayRefund (selfUsername venmoAssetsAccount : String) (isRefund : Bool)
    (id dt : String) (amount : ℚ) (fundingSource : Option FundingSource)
    (payment : Payment) (st : Locals) :
    Except RunError (Locals × List Transaction) :=
  let st1 : Except RunError Locals :=
    if getUsername payment.target = selfUsername then
      if payment.action = "pay" then
        Except.ok { payee := some payment.actor, amount_coef := some 1 }
      else if payment.action = "charge" then
        Except.ok { payee := some payment.actor, amount_coef := some (-1) }
      else Except.error (RunError.assertActionFailed payment.action)
    else if getUsername payment.actor = selfUsername then
      if payment.action = "pay" then
        Except.ok { payee := some payment.target, amount_coef := some (-1) }
      else if payment.action = "charge" then
        Except.ok { payee := some payment.target, amount_coef := some 1 }
      else Except.error (RunError.assertActionFailed payment.action)
    else Except.ok st
  match st1 with
  | Except.error e => Except.error e
  | Except.ok st2 =>
    let st3 : Except RunError Locals :=
      if isRefund then
        match st2.amount_coef with
        | none => Except.error RunError.unboundLocalError
        | some c => Except.ok { st2 with amount_coef := some (-c) }
      else Except.ok st2
    match st3 with
    | Except.error e => Except.error e
    | Except.ok st4 =>
      match st4.payee, st4.amount_coef with
      | some payee, some coef =>
        match parseYmdHms 'T' dt with
        | none => Except.error RunError.dateError
        | some date =>
          let txnType := if isRefund then "refund" else "payment"
          let paymentTxn := makePaymentTransaction venmoAssetsAccount id date
            txnType payment.note payment.amount payment.action payee coef
          match fundingSource with
          | some fs =>
            if fs.sourceType = "bank" ∨ fs.sourceType = "transfer" then
              Except.ok (st4,
                [makeTransferTransaction venmoAssetsAccount id date fs.name
                  (-coef) amount (some payment) (some payee), paymentTxn])
            else Except.ok (st4, [paymentTxn])
          | none => Except.ok (st4, [paymentTxn])
      | _, _ => Except.error RunError.unboundLocalError

/-- Processing of one Venmo event (`venmo_json_source.py` lines 180-253):
payment/refund events go through `processPayRefund`; a transfer makes one
transfer transaction; a disbursement rebinds the local `payee` (but not
`amount_coef`) and makes one payment transaction; any other type is
`assert False`. -/
def stepEvent (selfUsername venmoAssetsAccount : String) (st : Locals)
    (e : Event) : Except RunError (Locals × List Transaction) :=
  match e with
  | Event.payment id dt amount fundingSource payment =>
    processPayRefund selfUsername venmoAssetsAccount false id dt amount
      fundingSource payment st
  | Event.refund id dt amount fundingSource payment =>
    processPayRefund selfUsername venmoAssetsAccount true id dt amount
      fundingSource payment st
  | Event.transfer id dt amount destinationName =>
    match parseYmdHms 'T' dt with
    | none => Except.error RunError.dateError
    | some date =>
      Except.ok (st, [makeTransferTransaction venmoAssetsAccount id date
        destinationName (-1) amount none none])
  | Event.disbursement id dt amount note merchant =>
    match parseYmdHms 'T' dt with
    | none => Except.error RunError.dateError
    | some date =>
      Except.ok ({ st with payee := some merchant },
        [makePaymentTransaction venmoAssetsAccount id date "disbursement"
          note amount "disbursement" merchant 1])
  | Event.other t => Except.error (RunError.unknownType t)

/-- Processing of the event list of one `prepare` call, threading the
function-scoped locals; the first failure aborts the run. -/
def processEvents (selfUsername venmoAssetsAccount : String) :
    List Event → Locals → Except RunError (Locals × List Transaction)
  | [], st => Except.ok (st, [])
  | e :: rest, st =>
    match stepEvent selfUsername venmoAssetsAccount st e with
    | Except.error err => Except.error err
    | Except.ok st' =>
      match processEvents selfUsername venmoAssetsAccount rest st'.1 with
      | Except.error err => Except.error err
      | Except.ok r => Except.ok (r.1, st'.2 ++ r.2)

end Venmo

namespace Recon

variable {K T : Type} [DecidableEq K]

theorem setdefaultAppend_nil (k : K) (v : T) :
    setdefaultAppend ([] : List (K × List T)) k v = [(k, [v])] := rfl

theorem setdefaultAppend_cons (k₀ : K) (vs : List T) (rest : List (K × List T)) (k : K) (v : T) :
    setdefaultAppend ((k₀, vs) :: rest) k v =
      if k₀ = k then (k₀, vs ++ [v]) :: rest
      else (k₀, vs) :: setdefaultAppend rest k v := rfl

theorem getGroup_nil (k : K) : getGroup ([] : List (K × List T)) k = [] := rfl

theorem getGroup_cons (k₀ : K) (vs : List T) (rest : List (K × List T)) (k : K) :
    getGroup ((k₀, vs) :: rest) k = if k₀ = k then vs else getGroup rest k := rfl

theorem containsKey_nil (k : K) : containsKey ([] : List (K × List T)) k = false := rfl

theorem containsKey_cons (k₀ : K) (vs : List T) (rest : List (K × List T)) (k : K) :
    containsKey ((k₀, vs) :: rest) k = (decide (k₀ = k) || containsKey rest k) := rfl

theorem getGroup_setdefaultAppend (d : List (K × List T)) (k k' : K) (v : T) :
    getGroup (setdefaultAppend d k v) k' =
      if k' = k then getGroup d k' ++ [v] else getGroup d k' := by
  induction d with
  | nil =>
    by_cases h : k' = k
    · subst h; simp [setdefaultAppend_nil, getGroup_cons, getGroup_nil]
    · have h' : ¬ k = k' := fun hh => h hh.symm
      simp [setdefaultAppend_nil, getGroup_cons, getGroup_nil, h, h']
  | cons e rest ih =>
    obtain ⟨k₀, vs⟩ := e
    by_cases h0 : k₀ = k
    · subst h0
      by_cases h : k₀ = k'
      · subst h
        simp [setdefaultAppend_cons, getGroup_cons]
      · have h' : ¬ k' = k₀ := fun hh => h hh.symm
        simp [setdefaultAppend_cons, getGroup_cons, h, h']
    · by_cases h : k₀ = k'
      · subst h
        simp [setdefaultAppend_cons, getGroup_cons, h0]
      · simp [setdefaultAppend_cons, getGroup_cons, h0, h, ih]

theorem containsKey_setdefaultAppend (d : List (K × List T)) (k k' : K) (v : T) :
    containsKey (setdefaultAppend d k v) k' = (containsKey d k' || decide (k' = k)) := by
  induction d with
  | nil =>
    rw [setdefaultAppend_nil, containsKey_cons, containsKey_nil]
    by_cases h : k = k'
    · simp [h]
    · have h' : ¬ k' = k := fun hh => h hh.symm
      simp [h, h']
  | cons e rest ih =>
    obtain ⟨k₀, vs⟩ := e
    rw [setdefaultAppend_cons]
    by_cases h0 : k₀ = k
    · subst h0
      rw [if_pos rfl, containsKey_cons, containsKey_cons]
      by_cases h : k₀ = k'
      · subst h
        simp
      · have h' : ¬ k' = k₀ := fun hh => h hh.symm
        simp [h, h']
    · rw [if_neg h0, containsKey_cons, containsKey_cons, ih, Bool.or_assoc]

/-- Every group produced by `setdefaultAppend` is nonempty if the previous
groups were. -/
theorem nonempty_setdefaultAppend (d : List (K × List T)) (k : K) (v : T)
    (h : ∀ e ∈ d, e.2 ≠ []) : ∀ e ∈ setdefaultAppend d k v, e.2 ≠ [] := by
  induction d with
  | nil =>
    rw [setdefaultAppend_nil]
    intro e he
    rw [List.mem_singleton] at he
    subst he
    simp
  | cons e0 rest ih =>
    obtain ⟨k₀, vs⟩ := e0
    rw [setdefaultAppend_cons]
    by_cases h0 : k₀ = k
    · rw [if_pos h0]
      intro e he
      rcases List.mem_cons.1 he with he | he
      · subst he; simp
      · exact h e (List.mem_cons_of_mem _ he)
    · rw [if_neg h0]
      intro e he
      rcases List.mem_cons.1 he with he | he
      · subst he; exact h (k₀, vs) (by simp)
      · exact ih (fun e' he' => h e' (List.mem_cons_of_mem _ he')) e he

theorem containsKey_iff_mem_keys (d : List (K × List T)) (k : K) :
    containsKey d k = true ↔ k ∈ d.map Prod.fst := by
  induction d with
  | nil => simp [containsKey_nil]
  | cons e rest ih =>
    obtain ⟨k₀, vs⟩ := e
    rw [containsKey_cons]
    simp only [List.map_cons, List.mem_cons, Bool.or_eq_true, decide_eq_true_eq]
    constructor
    · rintro (h | h)
      · exact Or.inl h.symm
      · exact Or.inr (ih.1 h)
    · rintro (h | h)
      · exact Or.inl h.symm
      · exact Or.inr (ih.2 h)

/-- `setdefaultAppend` keeps the keys duplicate-free. -/
theorem nodupKeys_setdefaultAppend (d : List (K × List T)) (k : K) (v : T)
    (h : (d.map Prod.fst).Nodup) :
    ((setdefaultAppend d k v).map Prod.fst).Nodup := by
  induction d with
  | nil => simp [setdefaultAppend_nil]
  | cons e0 rest ih =>
    obtain ⟨k₀, vs⟩ := e0
    simp only [List.map_cons, List.nodup_cons] at h
    by_cases h0 : k₀ = k
    · rw [setdefaultAppend_cons, if_pos h0]
      simp only [List.map_cons, List.nodup_cons]
      exact h
    · have hmem : k₀ ∉ (setdefaultAppend rest k v).map Prod.fst := by
        intro hc
        have hc' := (containsKey_iff_mem_keys _ _).2 hc
        rw [containsKey_setdefaultAppend] at hc'
        simp only [Bool.or_eq_true, decide_eq_true_eq] at hc'
        rcases hc' with h1 | h1
        · exact h.1 ((containsKey_iff_mem_keys _ _).1 h1)
        · exact h0 h1
      rw [setdefaultAppend_cons, if_neg h0]
      simp only [List.map_cons, List.nodup_cons]
      exact ⟨hmem, ih h.2⟩

theorem entriesFor_nil (k : K) : entriesFor k ([] : List (Option K × T)) = [] := rfl

theorem entriesFor_cons (k : K) (e : Option K × T) (es : List (Option K × T)) :
    entriesFor k (e :: es) =
      if e.1 = some k then e.2 :: entriesFor k es else entriesFor k es := by
  unfold entriesFor
  rw [List.filterMap_cons]
  by_cases h : e.1 = some k
  · rw [if_pos h, if_pos h]
  · rw [if_neg h, if_neg h]

theorem getGroup_foldl (es : List (Option K × T)) (d : List (K × List T)) (k : K) :
    getGroup (es.foldl scanStep d) k = getGroup d k ++ entriesFor k es := by
  induction es generalizing d with
  | nil => simp [entriesFor_nil]
  | cons e es ih =>
    obtain ⟨ok, t⟩ := e
    rw [List.foldl_cons, entriesFor_cons]
    cases ok with
    | none =>
      show getGroup (es.foldl scanStep d) k = _
      rw [ih]
      simp
    | some k₀ =>
      show getGroup (es.foldl scanStep (setdefaultAppend d k₀ t)) k = _
      rw [ih, getGroup_setdefaultAppend]
      by_cases h : k = k₀
      · subst h
        simp
      · have h' : ¬ (some k₀ : Option K) = some k := by
          intro hh
          exact h (Option.some.inj hh).symm
        rw [if_neg h, if_neg h']

theorem getGroup_scanJournal (journal : List (Option K × T)) (k : K) :
    getGroup (scanJournal journal) k = entriesFor k journal := by
  unfold scanJournal
  rw [getGroup_foldl, getGroup_nil, List.nil_append]

theorem nonempty_foldl (es : List (Option K × T)) (d : List (K × List T))
    (h : ∀ e ∈ d, e.2 ≠ []) : ∀ e ∈ es.foldl scanStep d, e.2 ≠ [] := by
  induction es generalizing d with
  | nil => exact h
  | cons e es ih =>
    obtain ⟨ok, t⟩ := e
    rw [List.foldl_cons]
    cases ok with
    | none => exact ih d h
    | some k₀ => exact ih _ (nonempty_setdefaultAppend d k₀ t h)

theorem nonempty_scanJournal (journal : List (Option K × T)) :
    ∀ e ∈ scanJournal journal, e.2 ≠ [] :=
  nonempty_foldl journal [] (by simp)

theorem nodupKeys_foldl (es : List (Option K × T)) (d : List (K × List T))
    (h : (d.map Prod.fst).Nodup) : (((es.foldl scanStep d)).map Prod.fst).Nodup := by
  induction es generalizing d with
  | nil => exact h
  | cons e es ih =>
    obtain ⟨ok, t⟩ := e
    rw [List.foldl_cons]
    cases ok with
    | none => exact ih d h
    | some k₀ => exact ih _ (nodupKeys_setdefaultAppend d k₀ t h)

theorem nodupKeys_scanJournal (journal : List (Option K × T)) :
    ((scanJournal journal).map Prod.fst).Nodup :=
  nodupKeys_foldl journal [] (by simp)

theorem getGroup_of_mem (d : List (K × List T)) (k : K) (vs : List T)
    (hnd : (d.map Prod.fst).Nodup) (hm : (k, vs) ∈ d) : getGroup d k = vs := by
  induction d with
  | nil => cases hm
  | cons e rest ih =>
    obtain ⟨k₀, vs₀⟩ := e
    simp only [List.map_cons, List.nodup_cons] at hnd
    rcases List.mem_cons.1 hm with hm | hm
    · rw [Prod.ext_iff] at hm
      obtain ⟨h1, h2⟩ := hm
      rw [getGroup_cons, if_pos h1.symm]
      exact h2.symm
    · have hk : ¬ k₀ = k := by
        intro hh
        subst hh
        exact hnd.1 (List.mem_map.2 ⟨(k₀, vs), hm, rfl⟩)
      rw [getGroup_cons, if_neg hk]
      exact ih hnd.2 hm

theorem mem_of_containsKey (d : List (K × List T)) (k : K)
    (h : containsKey d k = true) : (k, getGroup d k) ∈ d := by
  induction d with
  | nil => simp [containsKey_nil] at h
  | cons e rest ih =>
    obtain ⟨k₀, vs⟩ := e
    rw [containsKey_cons] at h
    by_cases h0 : k₀ = k
    · subst h0
      rw [getGroup_cons, if_pos rfl]
      exact List.mem_cons_self _ _
    · rw [Bool.or_eq_true, decide_eq_true_eq] at h
      rcases h with h | h
      · exact absurd h h0
      · rw [getGroup_cons, if_neg h0]
        exact List.mem_cons_of_mem _ (ih h)

theorem getGroup_eq_nil_of_not_containsKey (d : List (K × List T)) (k : K)
    (h : containsKey d k = false) : getGroup d k = [] := by
  induction d with
  | nil => rfl
  | cons e rest ih =>
    obtain ⟨k₀, vs⟩ := e
    rw [containsKey_cons, Bool.or_eq_false_iff] at h
    rw [getGroup_cons, if_neg (by simpa using h.1)]
    exact ih h.2

/-- A key present in the journal is present in the scan result. -/
theorem containsKey_scanJournal_of_entries (journal : List (Option K × T)) (k : K)
    (h : entriesFor k journal ≠ []) : containsKey (scanJournal journal) k = true := by
  by_contra hc
  have hc' : containsKey (scanJournal journal) k = false := by
    revert hc
    cases containsKey (scanJournal journal) k <;> simp
  have := getGroup_eq_nil_of_not_containsKey _ _ hc'
  rw [getGroup_scanJournal] at this
  exact h this

/-- A key present in the scan result is carried by some journal transaction. -/
theorem entries_of_containsKey_scanJournal (journal : List (Option K × T)) (k : K)
    (h : containsKey (scanJournal journal) k = true) : entriesFor k journal ≠ [] := by
  have hmem := mem_of_containsKey _ _ h
  have hne := nonempty_scanJournal journal _ hmem
  rw [getGroup_scanJournal] at hne
  exact hne

theorem getGroup_groupSynth (synth : List (K × T)) (k : K) :
    getGroup (groupSynth synth) k = synthFor k synth := by
  unfold groupSynth synthFor
  exact getGroup_scanJournal _ k

theorem bool_eq_false {b : Bool} (h : ¬ b = true) : b = false := by
  cases b
  · rfl
  · exact absurd rfl h

theorem invalidRefsKeyed_nil (I : List (K × List T)) :
    invalidRefsKeyed ([] : List (K × List T)) I = [] := rfl

theorem invalidRefsKeyed_cons_none (e : K × List T) (rest I : List (K × List T))
    (h : reportFor I e = none) :
    invalidRefsKeyed (e :: rest) I = invalidRefsKeyed rest I := by
  unfold invalidRefsKeyed
  rw [List.filterMap_cons, h]

theorem invalidRefsKeyed_cons_some (e : K × List T) (rest I : List (K × List T))
    (r : K × Int × List T) (h : reportFor I e = some r) :
    invalidRefsKeyed (e :: rest) I = r :: invalidRefsKeyed rest I := by
  unfold invalidRefsKeyed
  rw [List.filterMap_cons, h]

/-- The invalid-reference loop emits, for each key of the existing dict,
exactly one report when the counts mismatch and none otherwise: filtering
the keyed reports to a key `k` of a duplicate-free dict yields either the
single report for `k` or nothing. -/
theorem invalidRefsKeyed_filter_key (d I : List (K × List T)) (k : K)
    (hnd : (d.map Prod.fst).Nodup) :
    (invalidRefsKeyed d I).filter (fun r => decide (r.1 = k)) =
      if containsKey d k = true ∧ (getGroup d k).length ≠ (getGroup I k).length
      then [(k, ((getGroup d k).length : Int) - ((getGroup I k).length : Int), getGroup d k)]
      else [] := by
  induction d with
  | nil =>
    rw [invalidRefsKeyed_nil, if_neg]
    · rfl
    · rintro ⟨h1, _⟩
      rw [containsKey_nil] at h1
      cases h1
  | cons e rest ih =>
    obtain ⟨k₀, vs⟩ := e
    simp only [List.map_cons, List.nodup_cons] at hnd
    have ihr := ih hnd.2
    by_cases hm : vs.length = (getGroup I k₀).length
    · have hnone : reportFor I (k₀, vs) = none := if_pos hm
      rw [invalidRefsKeyed_cons_none _ _ _ hnone]
      by_cases h0 : k₀ = k
      · subst h0
        have hrest : containsKey rest k₀ = false := by
          apply bool_eq_false
          intro hc
          exact hnd.1 ((containsKey_iff_mem_keys rest k₀).1 hc)
        rw [ihr, if_neg, if_neg]
        · rintro ⟨_, h2⟩
          rw [getGroup_cons, if_pos rfl] at h2
          exact h2 hm
        · rintro ⟨h1, _⟩
          rw [hrest] at h1
          cases h1
      · have hck : containsKey ((k₀, vs) :: rest) k = containsKey rest k := by
          rw [containsKey_cons]
          simp [h0]
        have hgg : getGroup ((k₀, vs) :: rest) k = getGroup rest k := by
          rw [getGroup_cons, if_neg h0]
        rw [hck, hgg]
        exact ihr
    · have hsome : reportFor I (k₀, vs) =
          some (k₀, (vs.length : Int) - ((getGroup I k₀).length : Int), vs) := if_neg hm
      rw [invalidRefsKeyed_cons_some _ _ _ _ hsome, List.filter_cons]
      by_cases h0 : k₀ = k
      · subst h0
        have hrest : containsKey rest k₀ = false := by
          apply bool_eq_false
          intro hc
          exact hnd.1 ((containsKey_iff_mem_keys rest k₀).1 hc)
        have hcond : containsKey ((k₀, vs) :: rest) k₀ = true ∧
            (getGroup ((k₀, vs) :: rest) k₀).length ≠ (getGroup I k₀).length := by
          constructor
          · rw [containsKey_cons]
            simp
          · rw [getGroup_cons, if_pos rfl]
            exact hm
        have hnerest : ¬ (containsKey rest k₀ = true ∧
            (getGroup rest k₀).length ≠ (getGroup I k₀).length) := by
          rintro ⟨h1, _⟩
          rw [hrest] at h1
          cases h1
        rw [if_pos (by simp), ihr, if_neg hnerest, if_pos hcond, getGroup_cons, if_pos rfl]
      · have hck : containsKey ((k₀, vs) :: rest) k = containsKey rest k := by
          rw [containsKey_cons]
          simp [h0]
        have hgg : getGroup ((k₀, vs) :: rest) k = getGroup rest k := by
          rw [getGroup_cons, if_neg h0]
        rw [if_neg (by simp [h0]), hck, hgg]
        exact ihr

theorem synthFor_cons (k : K) (e : K × T) (l : List (K × T)) :
    synthFor k (e :: l) = if e.1 = k then e.2 :: synthFor k l else synthFor k l := by
  unfold synthFor
  rw [List.map_cons, entriesFor_cons]
  by_cases h : e.1 = k
  · rw [if_pos (by simp [h]), if_pos h]
  · rw [if_neg (by simp [h]), if_neg h]

theorem mem_synthFor_self (synth : List (K × T)) (e : K × T) (he : e ∈ synth) :
    e.2 ∈ synthFor e.1 synth := by
  unfold synthFor entriesFor
  exact List.mem_filterMap.2 ⟨(some e.1, e.2), List.mem_map.2 ⟨e, he, rfl⟩, by simp⟩

theorem entriesFor_append (k : K) (j₁ j₂ : List (Option K × T)) :
    entriesFor k (j₁ ++ j₂) = entriesFor k j₁ ++ entriesFor k j₂ := by
  unfold entriesFor
  exact List.filterMap_append _ _ _

/-- A synthesized transaction grouped under a key already present in the
ledger is never pending; filtering the pending list to such a key yields
nothing. -/
theorem pendingOf_filter_key (E : List (K × List T)) (synth : List (K × T)) (k : K)
    (h : containsKey E k = true) :
    (pendingOf E synth).filter (fun e => decide (e.1 = k)) = [] := by
  rw [List.filter_eq_nil_iff]
  intro e he
  have hp := (List.mem_filter.1 he).2
  simp only [decide_eq_true_eq]
  intro hek
  rw [hek, h] at hp
  simp at hp

theorem pendingOf_eq_nil_iff (E : List (K × List T)) (synth : List (K × T)) :
    pendingOf E synth = [] ↔ ∀ e ∈ synth, containsKey E e.1 = true := by
  unfold pendingOf
  rw [List.filter_eq_nil_iff]
  constructor <;> intro h e he
  · have h' := h e he
    simpa [Bool.not_eq_true, Bool.not_eq_false'] using h'
  · have h' := h e he
    simp [h']

/-- Restricting the pending filter to one key: if the key is already in
the ledger nothing with that key is pending, otherwise everything with
that key is. -/
theorem synthFor_pendingOf (E : List (K × List T)) (synth : List (K × T)) (k : K) :
    synthFor k (pendingOf E synth) =
      if containsKey E k = true then [] else synthFor k synth := by
  unfold pendingOf
  induction synth with
  | nil =>
    by_cases hck : containsKey E k = true
    · rw [List.filter_nil, if_pos hck]
      rfl
    · rw [List.filter_nil, if_neg hck]
  | cons e es ih =>
    rw [List.filter_cons]
    by_cases hek : e.1 = k
    · by_cases hck : containsKey E k = true
      · rw [if_neg (by rw [hek, hck]; simp), ih, if_pos hck, if_pos hck]
      · have hcf : containsKey E e.1 = false := by
          rw [hek]
          exact bool_eq_false hck
        rw [if_pos (by rw [hcf]; simp), synthFor_cons, if_pos hek, ih,
          if_neg hck, if_neg hck, synthFor_cons, if_pos hek]
    · by_cases hpe : containsKey E e.1 = true
      · rw [if_neg (by rw [hpe]; simp), ih, synthFor_cons, if_neg hek]
      · rw [if_pos (by rw [bool_eq_false hpe]; simp), synthFor_cons, if_neg hek, ih,
          synthFor_cons, if_neg hek]

/-- A clean run means every ledger key's group count equals its
synthesized count. -/
theorem length_eq_of_invalid_nil (journal : List (Option K × T)) (synth : List (K × T)) (k : K)
    (hclean : invalidRefs (scanJournal journal) (groupSynth synth) = [])
    (hck : containsKey (scanJournal journal) k = true) :
    (entriesFor k journal).length = (synthFor k synth).length := by
  unfold invalidRefs at hclean
  rw [List.map_eq_nil_iff] at hclean
  unfold invalidRefsKeyed at hclean
  rw [List.filterMap_eq_nil_iff] at hclean
  have hmem := mem_of_containsKey _ k hck
  have hnone := hclean _ hmem
  unfold reportFor at hnone
  by_cases h : (getGroup (scanJournal journal) k).length =
      (getGroup (groupSynth synth) k).length
  · rw [getGroup_scanJournal, getGroup_groupSynth] at h
    exact h
  · exfalso
    rw [if_neg h] at hnone
    cases hnone

/-- **C1** (amended).  For the list-grouping sources (ADP, Venmo, Cash
App, BoA mortgage, Workday, Emburse): for every identity key carried by at
least one existing ledger transaction, when the count of existing ledger
transactions grouped under that key differs from the count of synthesized
transactions grouped under the same key, `prepare` emits exactly one
invalid-reference report for that key, and its excess equals
`|existing| - |synthesized|` (so in particular equals that difference
whenever the existing count exceeds the synthesized count).  The Costco
source does not satisfy this (see the counterexample). -/
theorem mismatch_yields_one_report (journal : List (Option K × T)) (synth : List (K × T))
    (k : K) (hcarried : entriesFor k journal ≠ [])
    (hmismatch : (entriesFor k journal).length ≠ (synthFor k synth).length) :
    (invalidRefsKeyed (scanJournal journal) (groupSynth synth)).filter
        (fun r => decide (r.1 = k)) =
      [(k, ((entriesFor k journal).length : Int) - ((synthFor k synth).length : Int),
        entriesFor k journal)] := by
  have hck := containsKey_scanJournal_of_entries journal k hcarried
  have h1 : getGroup (scanJournal journal) k = entriesFor k journal :=
    getGroup_scanJournal journal k
  have h2 : getGroup (groupSynth synth) k = synthFor k synth :=
    getGroup_groupSynth synth k
  rw [invalidRefsKeyed_filter_key _ _ _ (nodupKeys_scanJournal journal), h1, h2,
    if_pos ⟨hck, hmismatch⟩]

theorem mismatch_yields_one_report_witness :
    entriesFor "k" [((some "k" : Option String), 0), (some "k", 1)] ≠ [] ∧
    (entriesFor "k" [((some "k" : Option String), 0), (some "k", 1)]).length ≠
      (synthFor "k" [("k", 5)]).length ∧
    (invalidRefsKeyed (scanJournal [((some "k" : Option String), 0), (some "k", 1)])
        (groupSynth [("k", 5)])).filter (fun r => decide (r.1 = "k")) =
      [("k", ((entriesFor "k" [((some "k" : Option String), 0), (some "k", 1)]).length : Int) -
        ((synthFor "k" [("k", 5)]).length : Int),
        entriesFor "k" [((some "k" : Option String), 0), (some "k", 1)])] :=
  ⟨by decide, by decide,
    mismatch_yields_one_report _ _ "k" (by decide) (by decide)⟩

/-- **C2** (amended).  For every identity key whose synthesized count
exceeds its existing-ledger count while the existing count is nonzero,
`prepare` of a list-grouping source does emit exactly one invalid-reference
report for that key — its excess is the negative number
`|existing| - |synthesized|` — and the extra synthesized transactions do
not surface as pending entries (their key is already present among the
existing transactions). -/
theorem excess_synth_is_reported (journal : List (Option K × T)) (synth : List (K × T))
    (k : K) (hcarried : entriesFor k journal ≠ [])
    (hgt : (entriesFor k journal).length < (synthFor k synth).length) :
    (invalidRefsKeyed (scanJournal journal) (groupSynth synth)).filter
        (fun r => decide (r.1 = k)) =
      [(k, ((entriesFor k journal).length : Int) - ((synthFor k synth).length : Int),
        entriesFor k journal)] ∧
    (pendingOf (scanJournal journal) synth).filter (fun e => decide (e.1 = k)) = [] := by
  have hck := containsKey_scanJournal_of_entries journal k hcarried
  have h1 : getGroup (scanJournal journal) k = entriesFor k journal :=
    getGroup_scanJournal journal k
  have h2 : getGroup (groupSynth synth) k = synthFor k synth :=
    getGroup_groupSynth synth k
  constructor
  · rw [invalidRefsKeyed_filter_key _ _ _ (nodupKeys_scanJournal journal), h1, h2,
      if_pos ⟨hck, Nat.ne_of_lt hgt⟩]
  · exact pendingOf_filter_key _ _ _ hck

theorem excess_synth_is_reported_witness :
    entriesFor "x" [((some "x" : Option String), 0)] ≠ [] ∧
    (entriesFor "x" [((some "x" : Option String), 0)]).length <
      (synthFor "x" [("x", 1), ("x", 2)]).length ∧
    ((invalidRefsKeyed (scanJournal [((some "x" : Option String), 0)])
        (groupSynth [("x", 1), ("x", 2)])).filter (fun r => decide (r.1 = "x")) =
      [("x", ((entriesFor "x" [((some "x" : Option String), 0)]).length : Int) -
        ((synthFor "x" [("x", 1), ("x", 2)]).length : Int),
        entriesFor "x" [((some "x" : Option String), 0)])] ∧
    (pendingOf (scanJournal [((some "x" : Option String), 0)]) [("x", 1), ("x", 2)]).filter
        (fun e => decide (e.1 = "x")) = []) :=
  ⟨by decide, by decide,
    excess_synth_is_reported _ _ "x" (by decide) (by decide)⟩

/-- **C2** counterexample.  With one existing ledger transaction under key
`"x"` and two synthesized transactions under the same key, the claimed
behaviour — no invalid-reference report, extras surfacing as pending —
fails on both counts: `prepare` emits the report `(-1, [0])` and reports
no pending entry at all. -/
theorem excess_synth_counterexample :
    (prepare [((some "x" : Option String), 0)] [("x", 1), ("x", 2)]).2 = [(-1, [0])] ∧
    (prepare [((some "x" : Option String), 0)] [("x", 1), ("x", 2)]).1 = [] :=
  ⟨rfl, rfl⟩

/-- **C3** (amended).  For the list-grouping sources, reconciliation
tracks the full multiplicity of existing ledger transactions per identity
key: when `N` existing transactions carry a key and no synthesized
transaction does, `prepare` emits for that key exactly one
invalid-reference report carrying excess `N` and listing all `N` existing
transactions.  The Costco source instead stores at most one transaction
per barcode and reports a hard-coded excess of 1 (see the counterexample).
-/
theorem orphan_reports_full_group (journal : List (Option K × T)) (synth : List (K × T))
    (k : K) (hcarried : entriesFor k journal ≠ [])
    (hnone : synthFor k synth = []) :
    (invalidRefsKeyed (scanJournal journal) (groupSynth synth)).filter
        (fun r => decide (r.1 = k)) =
      [(k, ((entriesFor k journal).length : Int), entriesFor k journal)] := by
  have hck := containsKey_scanJournal_of_entries journal k hcarried
  have h1 : getGroup (scanJournal journal) k = entriesFor k journal :=
    getGroup_scanJournal journal k
  have h2 : getGroup (groupSynth synth) k = synthFor k synth :=
    getGroup_groupSynth synth k
  have hlen : (entriesFor k journal).length ≠ (synthFor k synth).length := by
    rw [hnone]
    simpa using hcarried
  rw [invalidRefsKeyed_filter_key _ _ _ (nodupKeys_scanJournal journal), h1, h2,
    if_pos ⟨hck, hlen⟩, hnone]
  simp

theorem orphan_reports_full_group_witness :
    entriesFor "K" [((some "K" : Option String), 0), (some "K", 1), (some "K", 2)] ≠ [] ∧
    synthFor "K" ([] : List (String × Nat)) = [] ∧
    (invalidRefsKeyed
        (scanJournal [((some "K" : Option String), 0), (some "K", 1), (some "K", 2)])
        (groupSynth ([] : List (String × Nat)))).filter (fun r => decide (r.1 = "K")) =
      [("K",
        ((entriesFor "K" [((some "K" : Option String), 0), (some "K", 1), (some "K", 2)]).length : Int),
        entriesFor "K" [((some "K" : Option String), 0), (some "K", 1), (some "K", 2)])] :=
  ⟨by decide, rfl,
    orphan_reports_full_group _ _ "K" (by decide) rfl⟩

/-- **C4** (amended).  If a `prepare` run of a list-grouping source emits
zero invalid references, and every pending entry it produces is appended
verbatim to the ledger (keeping its identity-key metadata), then a second
run on the unchanged file set reports zero pending entries and zero
invalid references. -/
theorem idempotence_after_accepting_pending (journal : List (Option K × T))
    (synth : List (K × T)) (hclean : (prepare journal synth).2 = []) :
    prepare
      (journal ++ ((prepare journal synth).1).map (fun e => ((some e.1 : Option K), e.2)))
      synth = ([], []) := by
  have hclean' : invalidRefs (scanJournal journal) (groupSynth synth) = [] := hclean
  have hlen : ∀ k : K, containsKey (scanJournal journal) k = true →
      (entriesFor k journal).length = (synthFor k synth).length :=
    fun k hk => length_eq_of_invalid_nil journal synth k hclean' hk
  have hpend : (prepare journal synth).1 = pendingOf (scanJournal journal) synth := rfl
  rw [hpend]
  have hent : ∀ k : K,
      entriesFor k (journal ++
        (pendingOf (scanJournal journal) synth).map (fun e => ((some e.1 : Option K), e.2))) =
      entriesFor k journal ++ synthFor k (pendingOf (scanJournal journal) synth) := by
    intro k
    rw [entriesFor_append]
    rfl
  unfold prepare
  rw [Prod.mk.injEq]
  constructor
  · rw [pendingOf_eq_nil_iff]
    intro e he
    apply containsKey_scanJournal_of_entries
    rw [hent]
    by_cases hck : containsKey (scanJournal journal) e.1 = true
    · have h1 := entries_of_containsKey_scanJournal journal e.1 hck
      intro hnil
      rw [List.append_eq_nil] at hnil
      exact h1 hnil.1
    · have h2 : synthFor e.1 (pendingOf (scanJournal journal) synth) =
          synthFor e.1 synth := by
        rw [synthFor_pendingOf, if_neg hck]
      have h3 := mem_synthFor_self synth e he
      intro hnil
      rw [List.append_eq_nil, h2] at hnil
      rw [hnil.2] at h3
      cases h3
  · unfold invalidRefs invalidRefsKeyed
    rw [List.map_eq_nil_iff, List.filterMap_eq_nil_iff]
    intro e he
    have hmem : (e.1, e.2) ∈ scanJournal (journal ++
        (pendingOf (scanJournal journal) synth).map (fun e => ((some e.1 : Option K), e.2))) := by
      rw [Prod.mk.eta]
      exact he
    have hg : getGroup (scanJournal (journal ++
        (pendingOf (scanJournal journal) synth).map (fun e => ((some e.1 : Option K), e.2)))) e.1
        = e.2 :=
      getGroup_of_mem _ _ _ (nodupKeys_scanJournal _) hmem
    unfold reportFor
    rw [if_pos]
    rw [← hg, getGroup_scanJournal, hent, getGroup_groupSynth, List.length_append]
    by_cases hck : containsKey (scanJournal journal) e.1 = true
    · rw [synthFor_pendingOf, if_pos hck]
      simpa using hlen e.1 hck
    · have h4 : entriesFor e.1 journal = [] := by
        rw [← getGroup_scanJournal]
        exact getGroup_eq_nil_of_not_containsKey _ _ (bool_eq_false hck)
      rw [synthFor_pendingOf, if_neg hck, h4]
      simp

theorem idempotence_after_accepting_pending_witness :
    (prepare [((some "a" : Option String), 0)] [("a", 1), ("b", 2)]).2 = [] ∧
    prepare
      ([((some "a" : Option String), 0)] ++
        ((prepare [((some "a" : Option String), 0)] [("a", 1), ("b", 2)]).1).map
          (fun e => ((some e.1 : Option String), e.2)))
      [("a", 1), ("b", 2)] = ([], []) :=
  ⟨rfl, idempotence_after_accepting_pending _ _ rfl⟩

/-- **C4** counterexample.  Appending *every synthesized transaction*
verbatim (as the claim states) rather than only the pending ones breaks
idempotence as soon as the ledger already matched a key: with one existing
ledger transaction under `"k"` matched by one synthesized transaction, the
first run is completely clean, yet after appending the synthesized
transaction the second run emits the invalid reference `(1, [0, 1])`
instead of the claimed zero invalid references. -/
theorem idempotence_all_synth_counterexample :
    (prepare [((some "k" : Option String), 0)] [("k", 1)]).1 = [] ∧
    (prepare [((some "k" : Option String), 0)] [("k", 1)]).2 = [] ∧
    (prepare
        ([((some "k" : Option String), 0)] ++
          [("k", 1)].map (fun e => ((some e.1 : Option String), e.2)))
        [("k", 1)]).2 = [(1, [0, 1])] :=
  ⟨rfl, rfl, rfl⟩

end Recon

namespace Costco

/-- **C1** counterexample.  The Costco source violates the claim's
universal quantification over sources: with two existing ledger
transactions carrying barcode `"B"` and one synthesized receipt
transaction under the same barcode, the grouped counts differ (2 ≠ 1),
yet `prepare` emits no invalid-reference report at all (the claim demands
exactly one). -/
theorem multiplicity_counterexample :
    (Recon.entriesFor "B" [((some "B" : Option String), 0), (some "B", 1)]).length = 2 ∧
    (Recon.synthFor "B" [("B", 10)]).length = 1 ∧
    (Costco.prepare [((some "B" : Option String), 0), (some "B", 1)] [("B", 10)]).2 = [] :=
  ⟨rfl, rfl, rfl⟩

/-- **C3** counterexample.  The Costco source does not track multiplicity:
with `N = 2` existing ledger transactions carrying barcode `"B"` and no
synthesized receipt, the invalid-reference report carries excess 1 (not 2)
and lists only the most recently scanned transaction (not all 2). -/
theorem orphan_counterexample :
    (Recon.entriesFor "B" [((some "B" : Option String), 0), (some "B", 1)]).length = 2 ∧
    (Costco.prepare [((some "B" : Option String), 0), (some "B", 1)]
        ([] : List (String × Nat))).2 = [(1, 1)] :=
  ⟨rfl, rfl⟩

end Costco

/-- **C5** counterexample.  The Cash App source's amount parse
(`Decimal(row[4].replace('$', ''))`) strips only the dollar sign: the
thousands-separator comma and the `'--'` placeholder are both fatal parse
errors, not 1234.56 and 0 as the claim asserts of every source. -/
theorem cashapp_amount_counterexample :
    CashApp.parseAmountNumber "$1,234.56" = none ∧
    CashApp.parseAmountNumber "--" = none :=
  ⟨rfl, rfl⟩

/-- **C5** (amended).  The BoA mortgage and Emburse `_to_amount` parsers
strip the `'$'` symbol and thousands-separator commas and map the `'--'`
placeholder to exact zero: `"$1,234.56"` parses to the exact decimal
1234.56 (= 123456/100) and `"--"` to 0, in USD.  The Cash App parse
strips only `'$'` (see the counterexample), and the JSON/XLSX sources
receive native numbers and do no string amount parsing. -/
theorem amount_parsing_scenario :
    BoA.toAmount "$1,234.56" = some { currency := "USD", number := mkRat 123456 100 } ∧
    BoA.toAmount "--" = some { currency := "USD", number := 0 } ∧
    Emburse.toAmount "$1,234.56" = some { currency := "USD", number := mkRat 123456 100 } ∧
    Emburse.toAmount "--" = some { currency := "USD", number := 0 } :=
  ⟨rfl, rfl, rfl, rfl⟩

/-- **C6**.  Synthesizing from a payroll JSON file with one earning of
1000.00 and one deduction of -50.00 for `Taxes: Federal Income Tax` on
2024-01-15 yields exactly one transaction with two postings whose signs
are flipped relative to the raw data — the income-account posting is
-1000.00, the tax-expense-account posting is +50.00 — and whose
transaction-level metadata records the source file path relative to the
data directory. -/
theorem adp_payroll_scenario :
    Adp.makeTransaction Adp.demoConfig Adp.demoStatement
        (relpath "data/Hooli/Salary/2024-01-15.json" "data") =
      some { date := ⟨2024, 1, 15⟩
             payee := "Hooli"
             narration := "Payroll"
             meta := [("adp_payroll_source_file", "Hooli/Salary/2024-01-15.json")]
             postings := [
               { account := "Income:Hooli:Salary:Base"
                 units := { currency := "USD", number := -1000 }
                 meta := [("adp_payroll_posting_description", "Earning: Regular")] },
               { account := "Expenses:Tax:FY2024:Income:Federal"
                 units := { currency := "USD", number := 50 }
                 meta := [("adp_payroll_posting_description",
                           "Taxes: Federal Income Tax")] } ] } :=
  rfl

namespace CashApp

theorem processRows_append (acct : String) (pre rest : List (List String))
    (acc : List Transaction) :
    processRows acct (pre ++ rest) acc =
      match processRows acct pre acc with
      | Except.error e => Except.error e
      | Except.ok ts => processRows acct rest ts := by
  induction pre generalizing acc with
  | nil => rfl
  | cons row pre ih =>
    show processRows acct (row :: (pre ++ rest)) acc = _
    cases hpr : processRow acct row with
    | error e => simp [processRows, hpr]
    | ok ts => simp [processRows, hpr, ih]

/-- A row whose fee column is the literal `'$0'` can never produce the
fee-assertion failure (it may still fail in other ways). -/
theorem processRow_fee_ok (acct : String) (row : List String) (g : String)
    (h5 : row.get? 5 = some "$0") :
    processRow acct row ≠ Except.error (RunError.feeAssertFailed g) := by
  unfold processRow
  rw [h5]
  split
  · split
    · intro h
      cases h
    · split
      · intro h
        cases h
      · split
        · split
          · split
            · split
              · intro h
                cases h
              · intro h
                cases h
            · split
              · intro h
                cases h
              · intro h
                cases h
          · intro h
            cases h
        · simp_all
  · intro h
    cases h

theorem processRows_fee_ok (acct : String) (rows : List (List String))
    (hall : ∀ row ∈ rows, row.get? 5 = some "$0") (acc : List Transaction)
    (g : String) :
    processRows acct rows acc ≠ Except.error (RunError.feeAssertFailed g) := by
  induction rows generalizing acc with
  | nil =>
    intro h
    cases h
  | cons row rest ih =>
    show processRows acct (row :: rest) acc ≠ _
    cases hpr : processRow acct row with
    | error e =>
      have hne := processRow_fee_ok acct row g (hall row (by simp))
      rw [hpr] at hne
      simpa [processRows, hpr] using hne
    | ok ts =>
      simp only [processRows, hpr]
      exact ih (fun r hr => hall r (by simp [hr])) _

/-- **C9**.  For every Cash App CSV data row, `prepare` asserts that the
fee column (column 5) equals the literal `'$0'`: a row whose fee differs
— once the earlier steps (column access, date parse, amount parse) have
succeeded — aborts the entire run with the assertion failure, and under
the precondition that every row's fee is `'$0'` the assertion branch is
unreachable (no run ever fails with it). -/
theorem fee_assertion (acct : String) (goodRows : List (List String)) (g : String)
    (hfees : ∀ row ∈ goodRows, row.get? 5 = some "$0")
    (row : List String) (i0 i1 i2 i3 i4 f : String) (d : PyDate) (q : ℚ)
    (h0 : row.get? 0 = some i0) (h1 : row.get? 1 = some i1)
    (h2 : row.get? 2 = some i2) (h3 : row.get? 3 = some i3)
    (h4 : row.get? 4 = some i4) (h5 : row.get? 5 = some f)
    (hd : parseYmdHms ' ' (PyStr.dropRightStr i1 4) = some d)
    (hq : parseAmountNumber i4 = some q) (hf : ¬ f = "$0")
    (pre rest : List (List String)) (ts : List Transaction)
    (hpre : processRows acct pre [] = Except.ok ts) :
    processRun acct goodRows ≠ Except.error (RunError.feeAssertFailed g) ∧
    processRun acct (pre ++ row :: rest) =
      Except.error (RunError.feeAssertFailed f) := by
  constructor
  · exact processRows_fee_ok acct goodRows hfees [] g
  · have hrow : processRow acct row = Except.error (RunError.feeAssertFailed f) := by
      unfold processRow
      simp only [h0, h1, h2, h3, h4, h5]
      simp only [hd, hq]
      rw [if_neg hf]
    show processRows acct (pre ++ row :: rest) [] = _
    rw [processRows_append, hpre]
    show processRows acct (row :: rest) ts = _
    simp [processRows, hrow]

end CashApp

namespace CashApp

theorem fee_assertion_witness :
    (∀ row ∈ [["id1", "2023-05-06 07:08:09 PDT", "Cash out", "USD", "$12.34",
        "$0", "", "", "", "", "", "notes", "Bob", "Your Cash"]],
      row.get? 5 = some "$0") ∧
    (["id2", "2023-05-06 07:08:09 PDT", "Sent P2P", "USD", "$5", "$1.50",
        "", "", "", "", "", "n", "Bob", "Your Cash"].get? 1 =
      some "2023-05-06 07:08:09 PDT") ∧
    parseYmdHms ' ' (PyStr.dropRightStr "2023-05-06 07:08:09 PDT" 4) =
      some ⟨2023, 5, 6⟩ ∧
    parseAmountNumber "$5" = some (mkRat 5 1) ∧
    ¬ ("$1.50" : String) = "$0" ∧
    processRows "Assets:CashApp"
      [["id1", "2023-05-06 07:08:09 PDT", "Cash out", "USD", "$12.34",
        "$0", "", "", "", "", "", "notes", "Bob", "Your Cash"]] [] =
      Except.ok [makeTransferTransaction "Assets:CashApp" "id1" ⟨2023, 5, 6⟩
        "bank" ⟨"USD", mkRat 1234 100⟩ none none] ∧
    (processRun "Assets:CashApp"
      [["id1", "2023-05-06 07:08:09 PDT", "Cash out", "USD", "$12.34",
        "$0", "", "", "", "", "", "notes", "Bob", "Your Cash"]] ≠
      Except.error (RunError.feeAssertFailed "$9") ∧
    processRun "Assets:CashApp"
      ([["id1", "2023-05-06 07:08:09 PDT", "Cash out", "USD", "$12.34",
         "$0", "", "", "", "", "", "notes", "Bob", "Your Cash"]] ++
       ["id2", "2023-05-06 07:08:09 PDT", "Sent P2P", "USD", "$5", "$1.50",
         "", "", "", "", "", "n", "Bob", "Your Cash"] :: []) =
      Except.error (RunError.feeAssertFailed "$1.50")) :=
  ⟨by decide, rfl, rfl, rfl, by decide, rfl,
    fee_assertion "Assets:CashApp" _ "$9" (by decide)
      ["id2", "2023-05-06 07:08:09 PDT", "Sent P2P", "USD", "$5", "$1.50",
        "", "", "", "", "", "n", "Bob", "Your Cash"] "id2"
      "2023-05-06 07:08:09 PDT" "Sent P2P" "USD" "$5" "$1.50" ⟨2023, 5, 6⟩
      (mkRat 5 1) rfl rfl rfl rfl rfl rfl rfl rfl (by decide) _ [] _ rfl⟩

end CashApp

namespace Venmo

/-- **C10** (amended).  For a Venmo payment or refund event where neither
the payment actor's nor the payment target's username equals the
configured `self_username`, neither the `payee` nor the sign-coefficient
local is assigned by that event; so if the locals are still unbound (no
earlier event of the same `prepare` call bound them) processing fails
with an `UnboundLocalError`, but if earlier events left bindings the
event is *silently* processed with the stale values: the run continues
and the produced payment transaction's payee is the stale user's display
name (the transfer leg's payee field is the constant empty string). -/
theorem unbound_locals_semantics (selfUsername acct id dt : String) (amount : ℚ)
    (fundingSource : Option FundingSource) (payment : Payment) (isRefund : Bool)
    (hactor : getUsername payment.actor ≠ selfUsername)
    (htarget : getUsername payment.target ≠ selfUsername) :
    processPayRefund selfUsername acct isRefund id dt amount fundingSource payment
        { payee := none, amount_coef := none } =
      Except.error RunError.unboundLocalError ∧
    (∀ (p : User) (c : Int) (date : PyDate), parseYmdHms 'T' dt = some date →
      ∃ st' ts,
        processPayRefund selfUsername acct isRefund id dt amount fundingSource
            payment { payee := some p, amount_coef := some c } =
          Except.ok (st', ts) ∧
        st'.payee = some p ∧ ts ≠ [] ∧
        ∀ t ∈ ts, t.payee = getDisplayName p ∨ t.payee = "") := by
  constructor
  · unfold processPayRefund
    rw [if_neg htarget, if_neg hactor]
    cases isRefund <;> rfl
  · intro p c date hdate
    unfold processPayRefund
    rw [if_neg htarget, if_neg hactor]
    cases isRefund
    · simp only [Bool.false_eq_true, if_false, hdate]
      cases fundingSource with
      | none =>
        refine ⟨_, _, rfl, rfl, by simp, ?_⟩
        intro t ht
        rw [List.mem_singleton] at ht
        subst ht
        left
        rfl
      | some fs =>
        by_cases hfs : fs.sourceType = "bank" ∨ fs.sourceType = "transfer"
        · simp only [if_pos hfs]
          refine ⟨_, _, rfl, rfl, by simp, ?_⟩
          intro t ht
          rcases List.mem_cons.1 ht with ht | ht
          · subst ht
            right
            rfl
          · rw [List.mem_singleton] at ht
            subst ht
            left
            rfl
        · simp only [if_neg hfs]
          refine ⟨_, _, rfl, rfl, by simp, ?_⟩
          intro t ht
          rw [List.mem_singleton] at ht
          subst ht
          left
          rfl
    · simp only [if_true, hdate]
      cases fundingSource with
      | none =>
        refine ⟨_, _, rfl, rfl, by simp, ?_⟩
        intro t ht
        rw [List.mem_singleton] at ht
        subst ht
        left
        rfl
      | some fs =>
        by_cases hfs : fs.sourceType = "bank" ∨ fs.sourceType = "transfer"
        · simp only [if_pos hfs]
          refine ⟨_, _, rfl, rfl, by simp, ?_⟩
          intro t ht
          rcases List.mem_cons.1 ht with ht | ht
          · subst ht
            right
            rfl
          · rw [List.mem_singleton] at ht
            subst ht
            left
            rfl
        · simp only [if_neg hfs]
          refine ⟨_, _, rfl, rfl, by simp, ?_⟩
          intro t ht
          rw [List.mem_singleton] at ht
          subst ht
          left
          rfl

theorem unbound_locals_semantics_witness :
    getUsername ⟨some "bob", some "Bob"⟩ ≠ "me" ∧
    getUsername ⟨some "carol", some "Carol"⟩ ≠ "me" ∧
    (processPayRefund "me" "Assets:Venmo" false "2" "2024-01-03T03:04:05" 7 none
        { actor := ⟨some "bob", some "Bob"⟩, target := ⟨some "carol", some "Carol"⟩
          action := "pay", note := "m", amount := 7 }
        { payee := none, amount_coef := none } =
      Except.error RunError.unboundLocalError ∧
    (∀ (p : User) (c : Int) (date : PyDate),
      parseYmdHms 'T' "2024-01-03T03:04:05" = some date →
      ∃ st' ts,
        processPayRefund "me" "Assets:Venmo" false "2" "2024-01-03T03:04:05" 7 none
            { actor := ⟨some "bob", some "Bob"⟩, target := ⟨some "carol", some "Carol"⟩
              action := "pay", note := "m", amount := 7 }
            { payee := some p, amount_coef := some c } =
          Except.ok (st', ts) ∧
        st'.payee = some p ∧ ts ≠ [] ∧
        ∀ t ∈ ts, t.payee = getDisplayName p ∨ t.payee = "")) :=
  ⟨by decide, by decide,
    unbound_locals_semantics "me" "Assets:Venmo" "2" "2024-01-03T03:04:05" 7 none
      { actor := ⟨some "bob", some "Bob"⟩, target := ⟨some "carol", some "Carol"⟩
        action := "pay", note := "m", amount := 7 } false
      (by decide) (by decide)⟩

/-- **C10** counterexample.  The claim asserts that an event matching
neither username makes `prepare` fail with an unbound-variable error, but
Python locals persist across loop iterations: after a first event that
did bind `payee` and `amount_coef` (a payment to self from `alice`), a
second payment event between two strangers is processed without any
error, silently reusing the stale locals — the second transaction is
built with payee `alice` and coefficient 1. -/
theorem stale_locals_counterexample :
    processEvents "me" "Assets:Venmo"
      [Event.payment "1" "2024-01-02T03:04:05" 5 none
        { actor := { username := some "alice", display_name := some "Alice" }
          target := { username := some "me", display_name := some "Me" }
          action := "pay", note := "n", amount := 5 },
       Event.payment "2" "2024-01-03T03:04:05" 7 none
        { actor := { username := some "bob", display_name := some "Bob" }
          target := { username := some "carol", display_name := some "Carol" }
          action := "pay", note := "m", amount := 7 }]
      { payee := none, amount_coef := none } =
    Except.ok
      ({ payee := some { username := some "alice", display_name := some "Alice" }
         amount_coef := some 1 },
       [makePaymentTransaction "Assets:Venmo" "1" ⟨2024, 1, 2⟩ "payment" "n" 5
          "pay" { username := some "alice", display_name := some "Alice" } 1,
        makePaymentTransaction "Assets:Venmo" "2" ⟨2024, 1, 3⟩ "payment" "m" 7
          "pay" { username := some "alice", display_name := some "Alice" } 1]) :=
  rfl

end Venmo

namespace PyStr

/-- Two patterns that both start the same character sequence are
comparable: one starts the other. -/
theorem charsStarts_comparable (l : List Char) : ∀ (p₁ p₂ : List Char),
    charsStarts l p₁ = true → charsStarts l p₂ = true →
    charsStarts p₁ p₂ = true ∨ charsStarts p₂ p₁ = true := by
  induction l with
  | nil =>
    intro p₁ p₂ h1 h2
    cases p₁ with
    | nil =>
      right
      cases p₂ <;> rfl
    | cons a as => cases h1
  | cons c cs ih =>
    intro p₁ p₂ h1 h2
    cases p₁ with
    | nil =>
      right
      cases p₂ <;> rfl
    | cons a as =>
      cases p₂ with
      | nil =>
        left
        rfl
      | cons b bs =>
        rw [show charsStarts (c :: cs) (a :: as) =
          (decide (c = a) && charsStarts cs as) from rfl] at h1
        rw [Bool.and_eq_true, decide_eq_true_eq] at h1
        rw [show charsStarts (c :: cs) (b :: bs) =
          (decide (c = b) && charsStarts cs bs) from rfl] at h2
        rw [Bool.and_eq_true, decide_eq_true_eq] at h2
        have hab : a = b := h1.1.symm.trans h2.1
        rcases ih as bs h1.2 h2.2 with h | h
        · left
          rw [show charsStarts (a :: as) (b :: bs) =
            (decide (a = b) && charsStarts as bs) from rfl]
          rw [Bool.and_eq_true, decide_eq_true_eq]
          exact ⟨hab, h⟩
        · right
          rw [show charsStarts (b :: bs) (a :: as) =
            (decide (b = a) && charsStarts bs as) from rfl]
          rw [Bool.and_eq_true, decide_eq_true_eq]
          exact ⟨hab.symm, h⟩

end PyStr

namespace Workday

/-- An account classified income/equity/liability is not classified
expense/asset: the prefixes are pairwise incomparable. -/
theorem income_class_excludes (account : String)
    (h : (PyStr.startswith account "Income:" || PyStr.startswith account "Equity:" ||
        PyStr.startswith account "Liabilities:") = true) :
    (PyStr.startswith account "Expenses:" || PyStr.startswith account "Assets:") = false := by
  apply Recon.bool_eq_false
  intro hexp
  simp only [PyStr.startswith, Bool.or_eq_true] at h hexp
  rcases h with (h | h) | h <;> rcases hexp with hexp | hexp <;>
    rcases PyStr.charsStarts_comparable _ _ _ h hexp with hc | hc <;>
    exact absurd hc (by decide)

/-- An account classified expense/asset is not classified
income/equity/liability. -/
theorem expense_class_excludes (account : String)
    (h : (PyStr.startswith account "Expenses:" || PyStr.startswith account "Assets:") = true) :
    (PyStr.startswith account "Income:" || PyStr.startswith account "Equity:" ||
        PyStr.startswith account "Liabilities:") = false := by
  apply Recon.bool_eq_false
  intro hinc
  simp only [PyStr.startswith, Bool.or_eq_true] at h hinc
  rcases hinc with (hinc | hinc) | hinc <;> rcases h with h | h <;>
    rcases PyStr.charsStarts_comparable _ _ _ h hinc with hc | hc <;>
    exact absurd hc (by decide)

theorem roundHalfEven_nonpos (q : ℚ) (h : q ≤ 0) : roundHalfEven q ≤ 0 := by
  have hfl : ⌊q⌋ ≤ 0 := Int.floor_nonpos h
  have hhalf : (mkRat 1 2 : ℚ) = 1 / 2 := by
    rw [Rat.mkRat_eq_div]
    norm_num
  unfold roundHalfEven
  by_cases h1 : q - (⌊q⌋ : ℚ) < mkRat 1 2
  · rw [if_pos h1]
    exact hfl
  · have hn1 : ⌊q⌋ + 1 ≤ 0 := by
      have hle : (1 : ℚ) / 2 ≤ q - (⌊q⌋ : ℚ) := by
        rw [← hhalf]
        exact not_lt.1 h1
      have hneg : (⌊q⌋ : ℚ) < 0 := by linarith
      have : ⌊q⌋ < 0 := by exact_mod_cast hneg
      omega
    rw [if_neg h1]
    by_cases h2 : mkRat 1 2 < q - (⌊q⌋ : ℚ)
    · rw [if_pos h2]
      exact hn1
    · rw [if_neg h2]
      by_cases h3 : ⌊q⌋ % 2 = 0
      · rw [if_pos h3]
        exact hfl
      · rw [if_neg h3]
        exact hn1

theorem roundHalfEven_nonneg (q : ℚ) (h : 0 ≤ q) : 0 ≤ roundHalfEven q := by
  have hfl : 0 ≤ ⌊q⌋ := Int.floor_nonneg.2 h
  unfold roundHalfEven
  by_cases h1 : q - (⌊q⌋ : ℚ) < mkRat 1 2
  · rw [if_pos h1]
    exact hfl
  · rw [if_neg h1]
    by_cases h2 : mkRat 1 2 < q - (⌊q⌋ : ℚ)
    · rw [if_pos h2]
      omega
    · rw [if_neg h2]
      by_cases h3 : ⌊q⌋ % 2 = 0
      · rw [if_pos h3]
        exact hfl
      · rw [if_neg h3]
        omega

/-- **C7**.  For the Workday payroll source, every synthesized posting's
sign is determined by the target account's classification irrespective of
the raw sign in the spreadsheet: `_to_amount` yields a non-positive
number for an account prefixed `Income:`, `Equity:` or `Liabilities:`,
and a non-negative number for an account prefixed `Expenses:` or
`Assets:`. -/
theorem sign_convention (a : ℚ) (account : String) (amt : Amount)
    (h : toAmount (some a) account = some amt) :
    ((PyStr.startswith account "Income:" || PyStr.startswith account "Equity:" ||
        PyStr.startswith account "Liabilities:") = true → amt.number ≤ 0) ∧
    ((PyStr.startswith account "Expenses:" || PyStr.startswith account "Assets:") = true →
      0 ≤ amt.number) := by
  unfold toAmount at h
  constructor
  · intro hcl
    have hexp := income_class_excludes account hcl
    rw [hcl, hexp] at h
    simp only [] at h
    by_cases hpos : 0 < a
    · rw [if_pos (show 0 < a ∧ True from ⟨hpos, trivial⟩)] at h
      rw [if_neg (show ¬ (-a < 0 ∧ false = true) from fun hc => absurd hc.2 (by decide))] at h
      have hamt := Option.some.inj h
      rw [← hamt]
      show mkRat (roundHalfEven (-a * 100)) 100 ≤ 0
      rw [Rat.mkRat_eq_div]
      apply div_nonpos_of_nonpos_of_nonneg
      · have harg : -a * 100 ≤ 0 := by nlinarith
        exact_mod_cast roundHalfEven_nonpos _ harg
      · positivity
    · rw [if_neg (show ¬ (0 < a ∧ True) from fun hc => hpos hc.1)] at h
      rw [if_neg (show ¬ (a < 0 ∧ false = true) from fun hc => absurd hc.2 (by decide))] at h
      have hamt := Option.some.inj h
      rw [← hamt]
      show mkRat (roundHalfEven (a * 100)) 100 ≤ 0
      rw [Rat.mkRat_eq_div]
      apply div_nonpos_of_nonpos_of_nonneg
      · have harg : a * 100 ≤ 0 := by nlinarith [not_lt.1 hpos]
        exact_mod_cast roundHalfEven_nonpos _ harg
      · positivity
  · intro hcl
    have hinc := expense_class_excludes account hcl
    rw [hcl, hinc] at h
    simp only [] at h
    rw [if_neg (show ¬ (0 < a ∧ false = true) from fun hc => absurd hc.2 (by decide))] at h
    by_cases hneg : a < 0
    · rw [if_pos (show a < 0 ∧ True from ⟨hneg, trivial⟩)] at h
      have hamt := Option.some.inj h
      rw [← hamt]
      show (0 : ℚ) ≤ mkRat (roundHalfEven (-a * 100)) 100
      rw [Rat.mkRat_eq_div]
      apply div_nonneg
      · have harg : 0 ≤ -a * 100 := by nlinarith
        exact_mod_cast roundHalfEven_nonneg _ harg
      · positivity
    · rw [if_neg (show ¬ (a < 0 ∧ True) from fun hc => hneg hc.1)] at h
      have hamt := Option.some.inj h
      rw [← hamt]
      show (0 : ℚ) ≤ mkRat (roundHalfEven (a * 100)) 100
      rw [Rat.mkRat_eq_div]
      apply div_nonneg
      · have harg : 0 ≤ a * 100 := by nlinarith [not_lt.1 hneg]
        exact_mod_cast roundHalfEven_nonneg _ harg
      · positivity

theorem sign_convention_witness :
    toAmount (some (-3)) "Income:Salary" =
      some { currency := "USD", number := mkRat (-300) 100 } ∧
    (PyStr.startswith "Income:Salary" "Income:" ||
      PyStr.startswith "Income:Salary" "Equity:" ||
      PyStr.startswith "Income:Salary" "Liabilities:") = true ∧
    ({ currency := "USD", number := mkRat (-300) 100 } : Amount).number ≤ 0 := by
  have hb1 : (PyStr.startswith "Income:Salary" "Income:" ||
      PyStr.startswith "Income:Salary" "Equity:" ||
      PyStr.startswith "Income:Salary" "Liabilities:") = true := by decide
  have hb2 : (PyStr.startswith "Income:Salary" "Expenses:" ||
      PyStr.startswith "Income:Salary" "Assets:") = false := by decide
  have hval : toAmount (some (-3)) "Income:Salary" =
      some { currency := "USD", number := mkRat (-300) 100 } := by
    unfold toAmount
    simp only []
    rw [hb1, hb2]
    rw [if_neg (show ¬ ((0 : ℚ) < -3 ∧ (true : Bool) = true) from
      fun hc => absurd hc.1 (by norm_num))]
    rw [if_neg (show ¬ ((-3 : ℚ) < 0 ∧ (false : Bool) = true) from
      fun hc => absurd hc.2 (by decide))]
    rw [show ((-3 : ℚ) * 100) = ((-300 : ℤ) : ℚ) from by norm_num]
    have hr : roundHalfEven ((-300 : ℤ) : ℚ) = -300 := by
      unfold roundHalfEven
      rw [Int.floor_intCast]
      rw [if_pos]
      rw [sub_self, Rat.mkRat_eq_div]
      norm_num
    rw [hr]
  exact ⟨hval, hb1, (sign_convention (-3) "Income:Salary" _ hval).1 hb1⟩

end Workday

namespace MultiTable

theorem buildGrouped_nil (d : List (String × List Row)) (cur : Option String) :
    buildGrouped [] d cur = some d := rfl

theorem buildGrouped_cons (row : Row) (rest : List Row)
    (d : List (String × List Row)) (cur : Option String) :
    buildGrouped (row :: rest) d cur =
      if (dropTrailingNones row).length = 1 then
        match dropTrailingNones row with
        | [some name] => buildGrouped rest (setItem d name []) (some name)
        | _ => none
      else
        match cur with
        | none => none
        | some name =>
          match appendRow d name (dropTrailingNones row) with
          | none => none
          | some d' => buildGrouped rest d' cur := rfl

theorem buildByClaim_nil (acc : List (String × List Row)) :
    buildByClaim [] acc = some acc := rfl

theorem buildByClaim_cons (row : Row) (rest : List Row)
    (acc : List (String × List Row)) :
    buildByClaim (row :: rest) acc =
      if (dropTrailingNones row).length = 1 then
        match dropTrailingNones row with
        | [some name] => buildByClaim rest (acc ++ [(name, [])])
        | _ => none
      else
        match acc.getLast? with
        | none => none
        | some e => buildByClaim rest (acc.dropLast ++ [(e.1, e.2 ++ [dropTrailingNones row])]) := rfl

theorem titlesOf_cons_title (row : Row) (rest : List Row) (name : String)
    (h : dropTrailingNones row = [some name]) :
    titlesOf (row :: rest) = name :: titlesOf rest := by
  unfold titlesOf
  rw [List.filterMap_cons]
  simp only [h]

theorem titlesOf_cons_of_ne (row : Row) (rest : List Row)
    (h : ∀ name, dropTrailingNones row ≠ [some name]) :
    titlesOf (row :: rest) = titlesOf rest := by
  unfold titlesOf
  rw [List.filterMap_cons]
  have hnone : (match dropTrailingNones row with
      | [some name] => some name
      | _ => none) = (none : Option String) := by
    cases hr : dropTrailingNones row with
    | nil => rfl
    | cons c cs =>
      cases c with
      | none => cases cs <;> rfl
      | some n =>
        cases cs with
        | nil => exact absurd hr (h n)
        | cons c2 cs2 => rfl
  rw [hnone]

/-- Writing a fresh key into an insertion-ordered dict appends the entry
at the end. -/
theorem setItem_not_mem (d : List (String × List Row)) (k : String) (v : List Row)
    (h : k ∉ d.map Prod.fst) : setItem d k v = d ++ [(k, v)] := by
  induction d with
  | nil => rfl
  | cons e rest ih =>
    obtain ⟨k₀, v₀⟩ := e
    simp only [List.map_cons, List.mem_cons] at h
    rw [show setItem ((k₀, v₀) :: rest) k v =
      (if k₀ = k then (k₀, v) :: rest else (k₀, v₀) :: setItem rest k v) from rfl]
    rw [if_neg (fun hh => h (Or.inl hh.symm))]
    rw [ih (fun hh => h (Or.inr hh))]
    rfl

/-- Appending a row under the key of the last dict entry (duplicate-free
keys) appends it to that last entry's row list. -/
theorem appendRow_last (pre : List (String × List Row)) (k : String)
    (rs : List Row) (row : Row)
    (hnd : ((pre ++ [(k, rs)]).map Prod.fst).Nodup) :
    appendRow (pre ++ [(k, rs)]) k row = some (pre ++ [(k, rs ++ [row])]) := by
  induction pre with
  | nil =>
    show (if k = k then some [(k, rs ++ [row])]
       else match appendRow [] k row with
            | none => none
            | some rest' => some ((k, rs) :: rest')) = _
    rw [if_pos rfl]
    rfl
  | cons e pre ih =>
    obtain ⟨k₀, v₀⟩ := e
    simp only [List.cons_append, List.map_cons, List.nodup_cons] at hnd
    have hne : ¬ k₀ = k := by
      intro hh
      subst hh
      exact hnd.1 (by simp)
    show (if k₀ = k then some ((k₀, v₀ ++ [row]) :: (pre ++ [(k, rs)]))
       else match appendRow (pre ++ [(k, rs)]) k row with
            | none => none
            | some rest' => some ((k₀, v₀) :: rest')) = _
    rw [if_neg hne, ih hnd.2]
    rfl

/-- The grouping loop of `read_tables` agrees with the claim's partition
semantics whenever the invariants hold: duplicate-free accumulated keys,
remaining titles fresh and duplicate-free, and the current section (when
set) being the last accumulated entry. -/
theorem buildGrouped_eq_byClaim (rows : List Row) :
    ∀ (acc : List (String × List Row)) (cur : Option String),
    (acc.map Prod.fst).Nodup →
    (∀ n ∈ titlesOf rows, n ∉ acc.map Prod.fst) →
    (titlesOf rows).Nodup →
    (match cur with
     | none => acc = []
     | some k => ∃ pre rs, acc = pre ++ [(k, rs)]) →
    buildGrouped rows acc cur = buildByClaim rows acc := by
  induction rows with
  | nil =>
    intro acc cur _ _ _ _
    rfl
  | cons row rest ih =>
    intro acc cur hnd hdisj hT hcur
    rw [buildGrouped_cons, buildByClaim_cons]
    by_cases hlen : (dropTrailingNones row).length = 1
    · rw [if_pos hlen, if_pos hlen]
      have hform : (∃ name, dropTrailingNones row = [some name]) ∨
          dropTrailingNones row = [none] := by
        cases hr : dropTrailingNones row with
        | nil => rw [hr] at hlen; cases hlen
        | cons c cs =>
          cases cs with
          | nil =>
            cases c with
            | none => right; rfl
            | some n => left; exact ⟨n, rfl⟩
          | cons c2 cs2 =>
            rw [hr] at hlen
            simp at hlen
      rcases hform with ⟨name, hr⟩ | hr
      · rw [hr]
        simp only []
        have htl := titlesOf_cons_title row rest name hr
        rw [htl] at hdisj hT
        have hfresh : name ∉ acc.map Prod.fst := hdisj name (by simp)
        have hset : setItem acc name [] = acc ++ [(name, [])] :=
          setItem_not_mem acc name [] hfresh
        rw [hset]
        apply ih
        · rw [List.map_append]
          simp only [List.map_cons, List.map_nil]
          rw [show acc.map Prod.fst ++ [name] = acc.map Prod.fst ++ name :: [] from rfl]
          rw [List.nodup_middle]
          rw [List.append_nil]
          exact List.Nodup.cons hfresh hnd
        · intro n hn
          rw [List.map_append]
          simp only [List.map_cons, List.map_nil]
          intro hmem
          rcases List.mem_append.1 hmem with hmem | hmem
          · exact hdisj n (by simp [hn]) hmem
          · rw [List.mem_singleton] at hmem
            subst hmem
            exact (List.nodup_cons.1 hT).1 hn
        · exact (List.nodup_cons.1 hT).2
        · exact ⟨acc, [], rfl⟩
      · rw [hr]
    · rw [if_neg hlen, if_neg hlen]
      have hnotitle : ∀ name, dropTrailingNones row ≠ [some name] := by
        intro name hh
        rw [hh] at hlen
        simp at hlen
      have htl := titlesOf_cons_of_ne row rest hnotitle
      rw [htl] at hdisj hT
      cases cur with
      | none =>
        have hacc : acc = [] := hcur
        subst hacc
        rfl
      | some k =>
        obtain ⟨pre, rs, hacc⟩ := hcur
        subst hacc
        simp only []
        rw [appendRow_last pre k rs _ hnd, List.getLast?_concat, List.dropLast_concat]
        simp only []
        apply ih
        · rw [List.map_append] at hnd ⊢
          simpa using hnd
        · intro n hn
          rw [List.map_append]
          rw [List.map_append] at hdisj
          simpa using hdisj n hn
        · exact hT
        · exact ⟨pre, rs ++ [dropTrailingNones row], rfl⟩

/-- **C8** (amended).  Provided no two section-title rows carry the same
name, `read_tables` partitions its input rows into named tables exactly
as the claim states: a row which, after dropping trailing empty cells,
consists of exactly one non-empty leading cell opens a new section named
by that cell, and every subsequent non-title row is assigned to the most
recently opened section until the next title row (a *repeated* title
instead resets the section, discarding the rows previously collected
under it — see the counterexample). -/
theorem read_tables_partitions (rows : List Row)
    (hT : (titlesOf rows).Nodup) :
    readTablesGrouped rows = readTablesByClaim rows := by
  unfold readTablesGrouped readTablesByClaim
  exact buildGrouped_eq_byClaim rows [] none (by simp) (by simp) hT rfl

theorem read_tables_partitions_witness :
    (titlesOf [[some "Payslip Information"], [some "Check Date", some "x"],
      [some "Earnings"], [some "Desc", some "Amount"],
      [some "Base", some "100"]]).Nodup ∧
    readTablesGrouped [[some "Payslip Information"], [some "Check Date", some "x"],
      [some "Earnings"], [some "Desc", some "Amount"],
      [some "Base", some "100"]] =
    readTablesByClaim [[some "Payslip Information"], [some "Check Date", some "x"],
      [some "Earnings"], [some "Desc", some "Amount"],
      [some "Base", some "100"]] :=
  ⟨by decide, read_tables_partitions _ (by decide)⟩

/-- **C8** counterexample.  With a repeated section title the code does
*not* partition the rows: `grouped_rows[title] = []` resets the section,
so the row `[x, y]` collected under the first `"A"` is dropped from the
output, while the claim's partition semantics keeps it. -/
theorem duplicate_title_counterexample :
    readTablesGrouped [[some "A"], [some "x", some "y"], [some "A"],
      [some "z", some "w"]] =
      some [("A", [[some "z", some "w"]])] ∧
    readTablesByClaim [[some "A"], [some "x", some "y"], [some "A"],
      [some "z", some "w"]] =
      some [("A", [[some "x", some "y"]]), ("A", [[some "z", some "w"]])] :=
  ⟨rfl, rfl⟩

end MultiTable
